import Mathlib

/-!
Verification of the Agenda-Web event store and storage layer.

This file gives a shallow embedding of the repository's two core modules:

* `src/db/database.ts` (the `EventDatabase` class over IndexedDB): event
  records, priority validation, sorted queries, insert/update/delete and
  the `markEventAsCompleted` wrapper.
* `src/store/eventStore.ts` (the zustand event store): the read cache with
  its 5000 ms TTL, the auto-completion reconcile pass
  (`checkAndUpdatePastEvents`), the per-event one-shot timers
  (`scheduleEventCheck` / `scheduledChecks`), `refreshEvents`, and the
  public mutation operations.

Modelling conventions:

* Wall-clock timestamps (`Date.now()`, `new Date().getTime()`) are `Int`
  milliseconds.  The interpretation of `parseISO(date ++ "T" ++ time)`
  as milliseconds is abstracted as a function parameter `dtI : DT`;
  all theorems quantify over it, so they hold for every interpretation
  of datetimes, in particular the real one.
* `new Date().toISOString()` strings are carried alongside the
  millisecond clock in a `Clock` structure.
* IndexedDB storage is a `List Event`; `getAll` on the primary key and
  `index.getAll(key)` return records in primary-key order, which the
  list order represents.  `store.put` replaces the record whose `id`
  matches, `store.add` appends with the auto-increment key, and
  `store.delete` resolves successfully whether or not the key exists
  (per the IndexedDB specification, delete of an absent key is a
  successful no-op).
* `Array.prototype.sort` is a stable sort by the supplied comparator
  (`a.date.localeCompare(b.date) || a.time.localeCompare(b.time)`), and a
  stable sort by a total preorder has a unique result; it is modelled
  with `List.insertionSort` (a stable sort) over the corresponding
  lexicographic order on the ISO strings.
* Asynchronous code is collapsed to sequential state transitions
  (single logical thread, suspension points only at storage calls).
-/

/-- Interpretation of `parseISO(date + "T" + time).getTime()` in milliseconds. -/
abbrev DT := String → String → Int

/-- One instant of wall-clock time: `ms` is `Date.now()` and `iso` is
`new Date().toISOString()` at that instant. -/
structure Clock where
  ms : Int
  iso : String
deriving DecidableEq

/-- Event record as persisted by `EventDatabase` (interface `Event` in
`database.ts`).  `priority` is a JS number at runtime, hence `Int`. -/
structure Event where
  id : Nat
  title : String
  description : String
  date : String
  time : String
  priority : Int
  completed : Bool
  created_at : String
  updated_at : Option String
deriving DecidableEq

/-- Payload of `addEvent` (interface `CreateEvent`). -/
structure CreateEvent where
  title : String
  description : String
  date : String
  time : String
  priority : Int
deriving DecidableEq

/-- Partial update (interface `UpdateEvent`); the extra `completed` field is
the one `markEventAsCompleted` passes through its `as any` cast. -/
structure UpdateEvent where
  title : Option String := none
  description : Option String := none
  date : Option String := none
  time : Option String := none
  priority : Option Int := none
  completed : Option Bool := none
deriving DecidableEq

/-- Errors raised by the database layer: `InvalidPriorityError` and the
plain `Error('Evento não encontrado')` of `updateEvent`. -/
inductive DbError where
  | invalidPriority (value : Int)
  | notFound
deriving DecidableEq

/-- The `message` property of the corresponding JS `Error` object. -/
def DbError.message : DbError → String
  | .invalidPriority v =>
      "Prioridade inválida: " ++ toString v ++
        ". Use 1 (pouco importante), 2 (razoavelmente importante) ou 3 (muito importante)"
  | .notFound => "Evento não encontrado"

namespace EventDatabase

/-- Embeds `EventDatabase.validatePriority`: throws `InvalidPriorityError`
unless the value is one of 1, 2, 3. -/
def validatePriority (priority : Int) : Except DbError Unit :=
  if priority = 1 ∨ priority = 2 ∨ priority = 3 then .ok () else .error (.invalidPriority priority)

/-- Comparator of `getAllEvents` / `getEventsByPriority`:
`a.date.localeCompare(b.date) || a.time.localeCompare(b.time)` viewed as a
"less or equal" relation on (date, time). -/
def dateTimeLe (a b : Event) : Prop :=
  a.date < b.date ∨ (a.date = b.date ∧ a.time ≤ b.time)

instance : DecidableRel dateTimeLe := fun a b => by
  unfold dateTimeLe; infer_instance

instance : IsTrans Event dateTimeLe :=
  ⟨fun a b c h1 h2 => by
    rcases h1 with h1 | ⟨h1, h1t⟩ <;> rcases h2 with h2 | ⟨h2, h2t⟩
    · exact Or.inl (h1.trans h2)
    · exact Or.inl (lt_of_lt_of_eq h1 h2)
    · exact Or.inl (lt_of_eq_of_lt h1 h2)
    · exact Or.inr ⟨h1.trans h2, h1t.trans h2t⟩⟩

instance : IsTotal Event dateTimeLe :=
  ⟨fun a b => by
    rcases lt_trichotomy a.date b.date with h | h | h
    · exact Or.inl (Or.inl h)
    · rcases le_total a.time b.time with ht | ht
      · exact Or.inl (Or.inr ⟨h, ht⟩)
      · exact Or.inr (Or.inr ⟨h.symm, ht⟩)
    · exact Or.inr (Or.inl h)⟩

/-- Comparator of `getEventsByDate`: `a.time.localeCompare(b.time)`. -/
def timeLe (a b : Event) : Prop :=
  a.time ≤ b.time

instance : DecidableRel timeLe := fun a b => by
  unfold timeLe; infer_instance

instance : IsTrans Event timeLe :=
  ⟨fun _ _ _ h1 h2 => le_trans h1 h2⟩

instance : IsTotal Event timeLe :=
  ⟨fun a b => le_total a.time b.time⟩

/-- Embeds `EventDatabase.getAllEvents`: full scan sorted by (date, time). -/
def getAllEvents (db : List Event) : List Event :=
  List.insertionSort dateTimeLe db

/-- Embeds `EventDatabase.getEventsByDate`: the `date` index lookup (records
with that date, in primary-key order) sorted by time. -/
def getEventsByDate (db : List Event) (date : String) : List Event :=
  List.insertionSort timeLe (db.filter (fun e => e.date == date))

/-- Embeds `EventDatabase.getEventsByPriority`: validate, then the
`priority` index lookup sorted by (date, time). -/
def getEventsByPriority (db : List Event) (priority : Int) : Except DbError (List Event) :=
  match validatePriority priority with
  | .error err => .error err
  | .ok _ => .ok (List.insertionSort dateTimeLe (db.filter (fun e => e.priority == priority)))

/-- Embeds `EventDatabase.addEvent`: validate priority, then `store.add`
of the payload extended with `completed: false`, `created_at: now`,
`updated_at: null` under the auto-increment key.  Returns the new record
list and the generated id. -/
def addEvent (db : List Event) (nextId : Nat) (e : CreateEvent) (nowIso : String) :
    Except DbError (List Event × Nat) :=
  match validatePriority e.priority with
  | .error err => .error err
  | .ok _ =>
      .ok (db ++ [{ id := nextId, title := e.title, description := e.description,
                    date := e.date, time := e.time, priority := e.priority,
                    completed := false, created_at := nowIso, updated_at := none }], nextId)

/-- The `Object.entries(updates).some(([key, value]) => value !== undefined
&& event[key] !== value)` check of `updateEvent`. -/
def needsUpdate (event : Event) (u : UpdateEvent) : Bool :=
  (match u.title with | some v => v != event.title | none => false) ||
  (match u.description with | some v => v != event.description | none => false) ||
  (match u.date with | some v => v != event.date | none => false) ||
  (match u.time with | some v => v != event.time | none => false) ||
  (match u.priority with | some v => v != event.priority | none => false) ||
  (match u.completed with | some v => v != event.completed | none => false)

/-- The merged record `{ ...event, ...updates, updated_at: now }`. -/
def mergeEvent (event : Event) (u : UpdateEvent) (nowIso : String) : Event :=
  { event with
    title := u.title.getD event.title,
    description := u.description.getD event.description,
    date := u.date.getD event.date,
    time := u.time.getD event.time,
    priority := u.priority.getD event.priority,
    completed := u.completed.getD event.completed,
    updated_at := some nowIso }

/-- Embeds `EventDatabase.updateEvent`: validate priority when present,
`store.get(id)`, reject when absent, and `store.put` the merged record with
a fresh `updated_at` only when some supplied field actually differs. -/
def updateEvent (db : List Event) (id : Nat) (u : UpdateEvent) (nowIso : String) :
    Except DbError (List Event) :=
  match (match u.priority with
         | some p => validatePriority p
         | none => .ok ()) with
  | .error err => .error err
  | .ok _ =>
      match db.find? (fun e => e.id == id) with
      | none => .error .notFound
      | some event =>
          if needsUpdate event u then
            .ok (db.map (fun e => if e.id == id then mergeEvent event u nowIso else e))
          else
            .ok db

/-- Embeds `EventDatabase.deleteEvent`: `store.delete(id)`.  Per IndexedDB
semantics the request succeeds whether or not a record with that key
exists, so this operation is total. -/
def deleteEvent (db : List Event) (id : Nat) : List Event :=
  db.filter (fun e => e.id != id)

/-- Embeds `EventDatabase.markEventAsCompleted`:
`updateEvent(id, { completed } as any)`. -/
def markEventAsCompleted (db : List Event) (id : Nat) (completed : Bool) (nowIso : String) :
    Except DbError (List Event) :=
  updateEvent db id { completed := some completed } nowIso

end EventDatabase

namespace EventStore

open EventDatabase

/-- One armed `setTimeout` whose callback will auto-complete `eventId`;
`delay` is the millisecond argument passed to `setTimeout` and `handle`
the value returned by it. -/
structure LiveTimer where
  handle : Nat
  eventId : Nat
  delay : Int
deriving DecidableEq

/-- The timer bookkeeping of the store: the `scheduledChecks` map (entries
`(eventId, handle)` in insertion order), the set of timeouts currently
live in the JS runtime, and a fresh-handle counter. -/
structure Timers where
  live : List LiveTimer
  registry : List (Nat × Nat)
  nextHandle : Nat
deriving DecidableEq

/-- One entry of the read cache: `{ timestamp: Date.now(), events }`. -/
structure CacheEntry where
  timestamp : Int
  events : List Event
deriving DecidableEq

/-- The `CACHE_DURATION` constant (5 seconds). -/
def CACHE_DURATION : Int := 5000

/-- Embeds `isCacheValid`: the entry exists and is younger than the TTL. -/
def isCacheValid (cache : List (String × CacheEntry)) (key : String) (nowMs : Int) : Bool :=
  match cache.lookup key with
  | none => false
  | some entry => decide (nowMs - entry.timestamp < CACHE_DURATION)

/-- Embeds `updateCache`: `cache[key] = { timestamp: Date.now(), events }`. -/
def updateCache (cache : List (String × CacheEntry)) (key : String) (nowMs : Int)
    (events : List Event) : List (String × CacheEntry) :=
  cache.filter (fun kv => kv.1 != key) ++ [(key, { timestamp := nowMs, events := events })]

/-- Embeds `invalidateCache`:
`Object.keys(cache).forEach(key => delete cache[key])`. -/
def invalidateCache (cache : List (String × CacheEntry)) : List (String × CacheEntry) :=
  (cache.map Prod.fst).foldl (fun m key => m.filter (fun kv => kv.1 != key)) cache

/-- Single step of the `events.map` callback in `checkAndUpdatePastEvents`:
the possibly-flipped event, plus the id pushed onto `eventsToUpdate`. -/
def reconcileStep (dtI : DT) (nowMs : Int) (e : Event) : Event × Option Nat :=
  if e.completed = false ∧ dtI e.date e.time < nowMs then
    ({ e with completed := true }, some e.id)
  else
    (e, none)

/-- Embeds the pure part of `checkAndUpdatePastEvents`: one pass over the
list producing the updated copy and, in list order, the ids for which the
store then issues `db.markEventAsCompleted(id, true)`. -/
def checkAndUpdatePastEvents (dtI : DT) (nowMs : Int) : List Event → List Event × List Nat
  | [] => ([], [])
  | e :: rest =>
      let step := reconcileStep dtI nowMs e
      let tail := checkAndUpdatePastEvents dtI nowMs rest
      (step.1 :: tail.1,
        match step.2 with
        | some i => i :: tail.2
        | none => tail.2)

/-- The `Promise.all(eventsToUpdate.map(id => db.markEventAsCompleted(id,
true)))` that `checkAndUpdatePastEvents` issues against storage. -/
def applyCompletions (db : List Event) (ids : List Nat) (nowIso : String) : List Event :=
  ids.foldl
    (fun d i =>
      match EventDatabase.markEventAsCompleted d i true nowIso with
      | .ok d2 => d2
      | .error _ => d)
    db

/-- The `clearTimeout(scheduledChecks.get(id)); scheduledChecks.delete(id)`
fragment, guarded by `scheduledChecks.has(id)`, shared by
`scheduleEventCheck`, `updateEvent`, `deleteEvent` and
`markEventAsCompleted`. -/
def clearCheck (ts : Timers) (id : Nat) : Timers :=
  match ts.registry.lookup id with
  | none => ts
  | some h =>
      { ts with
        live := ts.live.filter (fun t => t.handle != h),
        registry := ts.registry.filter (fun p => p.1 != id) }

/-- The `setTimeout` + `scheduledChecks.set` tail of `scheduleEventCheck`:
arm a fresh one-shot timer for `id` with the given delay. -/
def armNew (ts : Timers) (id : Nat) (delay : Int) : Timers :=
  { live := ts.live ++ [{ handle := ts.nextHandle, eventId := id, delay := delay }],
    registry := ts.registry ++ [(id, ts.nextHandle)],
    nextHandle := ts.nextHandle + 1 }

/-- Embeds `scheduleEventCheck`: return early when the event is completed
or its datetime is already in the past (`isBefore(eventDateTime, now)`),
otherwise cancel any previous timer for the id and arm a new one firing
`eventDateTime.getTime() - now.getTime()` milliseconds from now. -/
def scheduleEventCheck (dtI : DT) (nowMs : Int) (e : Event) (ts : Timers) : Timers :=
  if e.completed then ts
  else if dtI e.date e.time < nowMs then ts
  else armNew (clearCheck ts e.id) e.id (dtI e.date e.time - nowMs)

/-- Embeds `cleanup`: `clearTimeout` every handle held in
`scheduledChecks`, then clear the map. -/
def cleanupTimers (ts : Timers) : Timers :=
  { ts with
    live := ts.live.filter (fun t => ts.registry.all (fun p => p.2 != t.handle)),
    registry := [] }

/-- The whole mutable state reachable from the store closure: the
IndexedDB contents (`dbEvents` plus the auto-increment counter), the
cache, the timers, and the published zustand snapshot.  `queryLog` is
pure instrumentation: one entry (the cache key) is appended for every
`getAllEvents`/`getEventsByDate` read issued against storage, so that
"how many storage queries happened" is observable in theorems. -/
structure StoreState where
  dbEvents : List Event
  nextId : Nat
  cache : List (String × CacheEntry)
  timers : Timers
  events : List Event
  loading : Bool
  error : Option String
  selectedDate : Option String
  isDBReady : Bool
  queryLog : List String
deriving DecidableEq

/-- The cache key `selectedDate || 'all'` (an empty string is falsy in
JS, hence also maps to `'all'`). -/
def cacheKeyOf (selectedDate : Option String) : String :=
  match selectedDate with
  | none => "all"
  | some d => if d = "" then "all" else d

/-- The storage read performed by the cache-miss branch of
`refreshEvents`: `selectedDate ? db.getEventsByDate(selectedDate) :
db.getAllEvents()` (an empty string is falsy in JS). -/
def fetchedOf (s : StoreState) : List Event :=
  match s.selectedDate with
  | some d => if d = "" then EventDatabase.getAllEvents s.dbEvents
              else EventDatabase.getEventsByDate s.dbEvents d
  | none => EventDatabase.getAllEvents s.dbEvents

/-- Embeds `refreshEvents`: warn-and-return when the DB is not ready; on a
valid cache entry run the reconcile pass over the cached snapshot and
publish; otherwise query storage, reconcile, arm timers for every fetched
event, write the cache entry and publish. -/
def refreshEvents (dtI : DT) (c : Clock) (s : StoreState) : StoreState :=
  if s.isDBReady = false then s
  else if isCacheValid s.cache (cacheKeyOf s.selectedDate) c.ms then
    match s.cache.lookup (cacheKeyOf s.selectedDate) with
    | some entry =>
        { s with
          dbEvents := applyCompletions s.dbEvents
            (checkAndUpdatePastEvents dtI c.ms entry.events).2 c.iso,
          events := (checkAndUpdatePastEvents dtI c.ms entry.events).1,
          loading := false }
    | none => s
  else
    { s with
      dbEvents := applyCompletions s.dbEvents
        (checkAndUpdatePastEvents dtI c.ms (fetchedOf s)).2 c.iso,
      timers := (checkAndUpdatePastEvents dtI c.ms (fetchedOf s)).1.foldl
        (fun ts e => scheduleEventCheck dtI c.ms e ts) s.timers,
      cache := updateCache s.cache (cacheKeyOf s.selectedDate) c.ms
        (checkAndUpdatePastEvents dtI c.ms (fetchedOf s)).1,
      events := (checkAndUpdatePastEvents dtI c.ms (fetchedOf s)).1,
      loading := false,
      queryLog := s.queryLog ++ [cacheKeyOf s.selectedDate] }

/-- Embeds the store's `fetchEvents`: silently return when the DB is not
ready, else set loading, clear the error and refresh. -/
def fetchEvents (dtI : DT) (c : Clock) (s : StoreState) : StoreState :=
  if s.isDBReady = false then s
  else refreshEvents dtI c { s with loading := true, error := none }

/-- Embeds `fetchEventsByDate`. -/
def fetchEventsByDate (dtI : DT) (c : Clock) (date : String) (s : StoreState) : StoreState :=
  if s.isDBReady = false then s
  else refreshEvents dtI c { s with loading := true, error := none, selectedDate := some date }

/-- Embeds `setSelectedDate`. -/
def setSelectedDate (dtI : DT) (c : Clock) (date : Option String) (s : StoreState) : StoreState :=
  refreshEvents dtI c { s with selectedDate := date, loading := true }

/-- Embeds the store's `addEvent`: throw (`Except.error`) when the DB is
not ready; delegate to the database, publishing the error message on
failure; on success invalidate the cache and refresh. -/
def addEvent (dtI : DT) (c : Clock) (e : CreateEvent) (s : StoreState) :
    Except String StoreState :=
  if s.isDBReady = false then .error "DB não está inicializado"
  else
    let s1 : StoreState := { s with loading := true, error := none }
    match EventDatabase.addEvent s1.dbEvents s1.nextId e c.iso with
    | .error err => .ok { s1 with error := some err.message, loading := false }
    | .ok r =>
        let s2 := { s1 with dbEvents := r.1, nextId := s1.nextId + 1 }
        let s3 := { s2 with cache := invalidateCache s2.cache }
        .ok (refreshEvents dtI c s3)

/-- Embeds the store's `updateEvent`: delegate to the database; on success
cancel any scheduled check for the id, invalidate the cache and refresh;
on failure publish the error message. -/
def updateEvent (dtI : DT) (c : Clock) (id : Nat) (u : UpdateEvent) (s : StoreState) :
    Except String StoreState :=
  if s.isDBReady = false then .error "DB não está inicializado"
  else
    let s1 : StoreState := { s with loading := true, error := none }
    match EventDatabase.updateEvent s1.dbEvents id u c.iso with
    | .error err => .ok { s1 with error := some err.message, loading := false }
    | .ok db2 =>
        let s2 := { s1 with dbEvents := db2, timers := clearCheck s1.timers id }
        let s3 := { s2 with cache := invalidateCache s2.cache }
        .ok (refreshEvents dtI c s3)

/-- Embeds the store's `deleteEvent`: cancel any scheduled check for the
id, delegate to the database (which, per IndexedDB delete semantics,
always succeeds), invalidate the cache and refresh. -/
def deleteEvent (dtI : DT) (c : Clock) (id : Nat) (s : StoreState) :
    Except String StoreState :=
  if s.isDBReady = false then .error "DB não está inicializado"
  else
    let s1 : StoreState := { s with loading := true, error := none, timers := clearCheck s.timers id }
    let s2 := { s1 with dbEvents := EventDatabase.deleteEvent s1.dbEvents id }
    let s3 := { s2 with cache := invalidateCache s2.cache }
    .ok (refreshEvents dtI c s3)

/-- Embeds the store's `markEventAsCompleted`: when completing, cancel any
scheduled check for the id; delegate to the database; on success
invalidate the cache and refresh; on failure publish the error message. -/
def markEventAsCompleted (dtI : DT) (c : Clock) (id : Nat) (completed : Bool) (s : StoreState) :
    Except String StoreState :=
  if s.isDBReady = false then .error "DB não está inicializado"
  else
    let s1 : StoreState :=
      { s with loading := true, error := none,
               timers := if completed then clearCheck s.timers id else s.timers }
    match EventDatabase.markEventAsCompleted s1.dbEvents id completed c.iso with
    | .error err => .ok { s1 with error := some err.message, loading := false }
    | .ok db2 =>
        let s2 := { s1 with dbEvents := db2 }
        let s3 := { s2 with cache := invalidateCache s2.cache }
        .ok (refreshEvents dtI c s3)

/-- Embeds the body of the `setTimeout` callback armed by
`scheduleEventCheck` for the timer with the given handle:
`await db.markEventAsCompleted(event.id, true); await refreshEvents();
scheduledChecks.delete(event.id)`.  The fired timeout leaves the JS
runtime's live set before the callback runs; a rejected database update
aborts the rest of the callback. -/
def fireTimer (dtI : DT) (c : Clock) (handle : Nat) (s : StoreState) : StoreState :=
  match s.timers.live.find? (fun t => t.handle == handle) with
  | none => s
  | some t =>
      let s1 := { s with timers := { s.timers with
                    live := s.timers.live.filter (fun x => x.handle != handle) } }
      match EventDatabase.markEventAsCompleted s1.dbEvents t.eventId true c.iso with
      | .error _ => s1
      | .ok db2 =>
          let s2 := refreshEvents dtI c { s1 with dbEvents := db2 }
          { s2 with timers := { s2.timers with
              registry := s2.timers.registry.filter (fun p => p.1 != t.eventId) } }

/-- Embeds the store's `cleanup`. -/
def cleanup (s : StoreState) : StoreState :=
  { s with timers := cleanupTimers s.timers }

/-- Embeds `initializeStore` on the success path of `db.initDB()`. -/
def initializeStore (dtI : DT) (c : Clock) (s : StoreState) : StoreState :=
  refreshEvents dtI c { s with isDBReady := true, loading := false }

end EventStore

/-- Frame relation of the reconcile pass: the output event agrees with the
input event on every field except possibly `completed`, which may only
move from `false` to `true`. -/
def reconcileFrame (a b : Event) : Prop :=
  b.id = a.id ∧ b.title = a.title ∧ b.description = a.description ∧
  b.date = a.date ∧ b.time = a.time ∧ b.priority = a.priority ∧
  b.created_at = a.created_at ∧ b.updated_at = a.updated_at ∧
  (a.completed = true → b.completed = true)

/-- Every field supplied by the update equals the event's current stored
value (the "no-op update" situation of the spec). -/
def agreesWith (u : UpdateEvent) (e : Event) : Bool :=
  u.title.all (fun v => v == e.title) &&
  u.description.all (fun v => v == e.description) &&
  u.date.all (fun v => v == e.date) &&
  u.time.all (fun v => v == e.time) &&
  u.priority.all (fun v => v == e.priority) &&
  u.completed.all (fun v => v == e.completed)

namespace EventStore

/-- Well-formedness of the timer bookkeeping: the `scheduledChecks` map
has no duplicate event ids, live timeout handles are pairwise distinct,
every live timer is registered under its event id and handle, and the
fresh-handle counter dominates every issued handle. -/
def Timers.WF (ts : Timers) : Prop :=
  (ts.registry.map Prod.fst).Nodup ∧
  (ts.live.map LiveTimer.handle).Nodup ∧
  (∀ t ∈ ts.live, (t.eventId, t.handle) ∈ ts.registry) ∧
  (∀ t ∈ ts.live, t.handle < ts.nextHandle) ∧
  (∀ p ∈ ts.registry, p.2 < ts.nextHandle)

/-- Well-formedness of the whole store state: well-formed timers plus the
IndexedDB key invariants (primary keys unique, auto-increment counter
ahead of every issued key). -/
def StoreWF (s : StoreState) : Prop :=
  Timers.WF s.timers ∧
  (s.dbEvents.map Event.id).Nodup ∧
  (∀ e ∈ s.dbEvents, e.id < s.nextId)

instance (ts : Timers) : Decidable (Timers.WF ts) := by
  unfold Timers.WF
  exact inferInstance

instance (s : StoreState) : Decidable (StoreWF s) := by
  unfold StoreWF
  exact inferInstance

/-- Projection used to observe the outcome of a store mutation: the thrown
message for a rejected call, otherwise the `error` field of the published
snapshot. -/
def storeError : Except String StoreState → Option String
  | .error e => some e
  | .ok s => s.error

/-- Projection of the stored records after a store mutation. -/
def storeDb : Except String StoreState → Option (List Event)
  | .error _ => none
  | .ok s => some s.dbEvents

end EventStore

/-- Concrete datetime interpretation used by witnesses: every (date, time)
pair denotes 100 ms after the epoch. -/
def dtC : DT := fun _ _ => 100

/-- Concrete sample event whose datetime (under `dtC`) is in the future
for clocks before 100 ms. -/
def evFut : Event :=
  { id := 1, title := "Standup", description := "daily", date := "2025-01-10",
    time := "09:00", priority := 2, completed := false, created_at := "t0",
    updated_at := none }

/-- Concrete sample event already completed. -/
def evDone : Event :=
  { id := 2, title := "Review", description := "", date := "2025-01-11",
    time := "10:30", priority := 3, completed := true, created_at := "t0",
    updated_at := none }

/-- Empty timer state. -/
def tsEmpty : EventStore.Timers := { live := [], registry := [], nextHandle := 0 }

/-- A ready store state holding only the completed sample event. -/
def s0 : EventStore.StoreState :=
  { dbEvents := [evDone], nextId := 3, cache := [], timers := tsEmpty,
    events := [], loading := false, error := none, selectedDate := none,
    isDBReady := true, queryLog := [] }

/-- A ready store state with one armed timer for `evFut`. -/
def sFire : EventStore.StoreState :=
  { dbEvents := [evFut], nextId := 2, cache := [],
    timers := { live := [{ handle := 7, eventId := 1, delay := 60 }],
                registry := [(1, 7)], nextHandle := 8 },
    events := [evFut], loading := false, error := none, selectedDate := none,
    isDBReady := true, queryLog := [] }

/-- The record list after `markEventAsCompleted(1, true)` against
`sFire.dbEvents` at iso-instant "t9". -/
def dbFired : List Event :=
  [{ evFut with completed := true, updated_at := some "t9" }]

/-- Concrete clocks used by witnesses. -/
def clk1 : Clock := { ms := 0, iso := "t1" }

/-- A clock 1000 ms after `clk1` (within the cache TTL). -/
def clk2 : Clock := { ms := 1000, iso := "t2" }

/-- A clock 9000 ms after `clk1` (past the cache TTL). -/
def clk3 : Clock := { ms := 9000, iso := "t3" }

/-- The clock of the fired-timer witness. -/
def clk9 : Clock := { ms := 100, iso := "t9" }

/-- A creation payload with the illegal priority 5. -/
def ceBad : CreateEvent :=
  { title := "X", description := "", date := "2025-02-01", time := "08:00", priority := 5 }

/-- A creation payload with the legal priority 2. -/
def ceGood : CreateEvent :=
  { title := "Y", description := "", date := "2025-02-01", time := "09:00", priority := 2 }

/-- An update payload carrying the illegal priority 0. -/
def uBad : UpdateEvent := { priority := some 0 }

/-- An update payload repeating every stored field of `evDone`. -/
def uSame : UpdateEvent :=
  { title := some "Review", description := some "", date := some "2025-01-11",
    time := some "10:30", priority := some 3 }

/-- An update payload changing the title of `evDone`. -/
def uDiff : UpdateEvent := { title := some "Retro" }

namespace EventStore

/-- The updated copy returned by the reconcile pass is the pointwise flip
of every not-yet-completed past-due event. -/
theorem reconcile_fst (dtI : DT) (nowMs : Int) (l : List Event) :
    (checkAndUpdatePastEvents dtI nowMs l).1 =
      l.map (fun e =>
        if e.completed = false ∧ dtI e.date e.time < nowMs then
          { e with completed := true } else e) := by
  induction l with
  | nil => rfl
  | cons e rest ih =>
      simp only [checkAndUpdatePastEvents, reconcileStep, List.map_cons]
      split <;> simp [ih]

/-- The ids pushed onto `eventsToUpdate` by the reconcile pass are exactly
the ids of the not-yet-completed past-due events, in list order. -/
theorem reconcile_snd (dtI : DT) (nowMs : Int) (l : List Event) :
    (checkAndUpdatePastEvents dtI nowMs l).2 =
      (l.filter (fun e =>
        decide (e.completed = false ∧ dtI e.date e.time < nowMs))).map Event.id := by
  induction l with
  | nil => rfl
  | cons e rest ih =>
      simp only [checkAndUpdatePastEvents, reconcileStep, List.filter_cons]
      by_cases h : e.completed = false ∧ dtI e.date e.time < nowMs
      · simp [h, ih]
      · simp [h, ih]

end EventStore

namespace EventStore

/-- C1.  The reconcile pass (`checkAndUpdatePastEvents`) marks completed
exactly those events that are not yet completed and whose date+time is
strictly before `now`, leaves every other event unchanged, and the
persistence updates it issues (`db.markEventAsCompleted(id, true)`) are
exactly the ids of the flipped events. -/
theorem checkAndUpdatePastEvents_spec (dtI : DT) (nowMs : Int) (events : List Event) :
    (checkAndUpdatePastEvents dtI nowMs events).1 =
      events.map (fun e =>
        if e.completed = false ∧ dtI e.date e.time < nowMs then
          { e with completed := true } else e) ∧
    (checkAndUpdatePastEvents dtI nowMs events).2 =
      (events.filter (fun e =>
        decide (e.completed = false ∧ dtI e.date e.time < nowMs))).map Event.id :=
  ⟨reconcile_fst dtI nowMs events, reconcile_snd dtI nowMs events⟩

/-- C10.  The reconcile pass preserves length and order, and each output
event equals the corresponding input event on every field except possibly
`completed`, which is never changed from `true` to `false`. -/
theorem checkAndUpdatePastEvents_frame (dtI : DT) (nowMs : Int) (events : List Event) :
    List.Forall₂ reconcileFrame events (checkAndUpdatePastEvents dtI nowMs events).1 ∧
    (checkAndUpdatePastEvents dtI nowMs events).1.length = events.length := by
  constructor
  · induction events with
    | nil => exact List.Forall₂.nil
    | cons e rest ih =>
        refine List.Forall₂.cons ?_ ih
        simp only [reconcileStep]
        split <;> simp [reconcileFrame]
  · rw [reconcile_fst]
    exact List.length_map _ _

end EventStore

namespace EventDatabase

/-- C8.  `getAllEvents` and successful `getEventsByPriority` results are
sorted ascending by (date, time) under lexicographic string comparison,
and `getEventsByDate` results are sorted ascending by time. -/
theorem queries_sorted_spec (db : List Event) :
    (EventDatabase.getAllEvents db).Pairwise
      (fun a b => a.date < b.date ∨ (a.date = b.date ∧ a.time ≤ b.time)) ∧
    (∀ d, (EventDatabase.getEventsByDate db d).Pairwise
      (fun a b => a.time ≤ b.time)) ∧
    (∀ p l, EventDatabase.getEventsByPriority db p = .ok l →
      l.Pairwise (fun a b => a.date < b.date ∨ (a.date = b.date ∧ a.time ≤ b.time))) := by
  refine ⟨?_, ?_, ?_⟩
  · exact List.sorted_insertionSort dateTimeLe db
  · intro d
    exact List.sorted_insertionSort timeLe (db.filter (fun e => e.date == d))
  · intro p l hl
    have hl2 : l = List.insertionSort dateTimeLe (db.filter (fun e => e.priority == p)) := by
      unfold getEventsByPriority at hl
      rcases hv : validatePriority p with err | u
      · rw [hv] at hl
        exact absurd hl (by simp)
      · rw [hv] at hl
        exact (Except.ok.inj hl).symm
    exact hl2 ▸ List.sorted_insertionSort dateTimeLe (db.filter (fun e => e.priority == p))

/-- Witness for C8: instantiates the priority-query conjunct on a concrete
store, discharging the success hypothesis. -/
theorem queries_sorted_spec_witness :
    (List.insertionSort dateTimeLe ([evFut, evDone].filter (fun e => e.priority == 2))).Pairwise
      (fun a b => a.date < b.date ∨ (a.date = b.date ∧ a.time ≤ b.time)) :=
  (queries_sorted_spec [evFut, evDone]).2.2 2
    (List.insertionSort dateTimeLe ([evFut, evDone].filter (fun e => e.priority == 2)))
    rfl

end EventDatabase

namespace EventDatabase

/-- Priority validation accepts the three legal values. -/
theorem validatePriority_ok {p : Int} (h : p = 1 ∨ p = 2 ∨ p = 3) :
    validatePriority p = .ok () := by
  simp [validatePriority, h]

/-- Priority validation rejects everything else, carrying the value. -/
theorem validatePriority_err {p : Int} (h : ¬(p = 1 ∨ p = 2 ∨ p = 3)) :
    validatePriority p = .error (.invalidPriority p) := by
  simp [validatePriority, h]

/-- The no-op-update predicate of the spec is the complement of the
`needsUpdate` check in the code. -/
theorem agreesWith_eq_not_needsUpdate (u : UpdateEvent) (e : Event) :
    agreesWith u e = !needsUpdate e u := by
  obtain ⟨t, d, da, ti, p, c⟩ := u
  cases t <;> cases d <;> cases da <;> cases ti <;> cases p <;> cases c <;>
    simp [agreesWith, needsUpdate, Option.all, Bool.not_or, bne, Bool.not_not]

end EventDatabase

namespace EventDatabase

/-- Insert with an illegal priority is rejected before any write. -/
theorem addEvent_invalid {e : CreateEvent}
    (h : ¬(e.priority = 1 ∨ e.priority = 2 ∨ e.priority = 3))
    (db : List Event) (n : Nat) (iso : String) :
    addEvent db n e iso = .error (.invalidPriority e.priority) := by
  unfold addEvent
  rw [validatePriority_err h]

/-- Update carrying an illegal priority is rejected before any write. -/
theorem updateEvent_invalid {u : UpdateEvent} {p : Int}
    (hp : u.priority = some p) (h : ¬(p = 1 ∨ p = 2 ∨ p = 3))
    (db : List Event) (id : Nat) (iso : String) :
    updateEvent db id u iso = .error (.invalidPriority p) := by
  unfold updateEvent
  rw [hp]
  simp only [validatePriority_err h]

end EventDatabase

/-- C4.  An update whose supplied fields all equal the stored values
succeeds without any write (the record list, hence `updated_at`, is
unchanged); when some supplied field differs, the stored record is
replaced by the merged record whose `updated_at` is the current
timestamp.  Priorities are assumed legal, which the data-model invariant
(priority is always in {1,2,3}) guarantees for reachable stores. -/
theorem updateEvent_noop_spec (db : List Event) (id : Nat) (u : UpdateEvent) (iso : String)
    (e : Event) (hfind : db.find? (fun x => x.id == id) = some e)
    (hupr : ∀ p, u.priority = some p → p = 1 ∨ p = 2 ∨ p = 3) :
    (agreesWith u e = true → EventDatabase.updateEvent db id u iso = .ok db) ∧
    (agreesWith u e = false →
      EventDatabase.updateEvent db id u iso =
        .ok (db.map (fun x => if x.id == id then EventDatabase.mergeEvent e u iso else x)) ∧
      (EventDatabase.mergeEvent e u iso).updated_at = some iso) := by
  have hval : (match u.priority with
               | some p => EventDatabase.validatePriority p
               | none => Except.ok ()) = Except.ok () := by
    cases hp : u.priority with
    | none => rfl
    | some p => exact EventDatabase.validatePriority_ok (hupr p hp)
  have hag := EventDatabase.agreesWith_eq_not_needsUpdate u e
  constructor
  · intro hagree
    have hnu : EventDatabase.needsUpdate e u = false := by
      rw [hagree] at hag
      cases hn : EventDatabase.needsUpdate e u
      · rfl
      · rw [hn] at hag
        simp at hag
    unfold EventDatabase.updateEvent
    rw [hval]
    simp only [hfind, hnu]
    simp
  · intro hagree
    have hnu : EventDatabase.needsUpdate e u = true := by
      rw [hagree] at hag
      cases hn : EventDatabase.needsUpdate e u
      · rw [hn] at hag
        simp at hag
      · rfl
    refine ⟨?_, rfl⟩
    unfold EventDatabase.updateEvent
    rw [hval]
    simp only [hfind, hnu]
    simp

/-- Witness for C4: a same-values update of the sample event leaves the
records untouched, and a title change stamps `updated_at`. -/
theorem updateEvent_noop_spec_witness :
    (EventDatabase.updateEvent [evFut, evDone] 2 uSame "t5" = .ok [evFut, evDone]) ∧
    (EventDatabase.mergeEvent evDone uDiff "t5").updated_at = some "t5" := by
  have hs := updateEvent_noop_spec [evFut, evDone] 2 uSame "t5" evDone (by decide)
    (by intro p hp; simp [uSame] at hp; omega)
  have hd := updateEvent_noop_spec [evFut, evDone] 2 uDiff "t5" evDone (by decide)
    (by intro p hp; simp [uDiff] at hp)
  exact ⟨hs.1 (by decide), (hd.2 (by decide)).2⟩

/-- C3.  Priority validation: inserts and priority-setting updates with a
value outside {1,2,3} fail with `InvalidPriorityError` (whose message
names the offending value and the three legal options) before any write
reaches storage — at store level the records are untouched and only the
error field is published — while values in {1,2,3} never make priority
validation fail. -/
theorem priority_validation_spec (dtI : DT) (c : Clock) :
    (∀ p : Int, (p = 1 ∨ p = 2 ∨ p = 3) → EventDatabase.validatePriority p = .ok ()) ∧
    (∀ p : Int, ¬(p = 1 ∨ p = 2 ∨ p = 3) →
      EventDatabase.validatePriority p = .error (.invalidPriority p)) ∧
    (∀ p : Int, (DbError.invalidPriority p).message =
      "Prioridade inválida: " ++ toString p ++
        ". Use 1 (pouco importante), 2 (razoavelmente importante) ou 3 (muito importante)") ∧
    (∀ (db : List Event) (n : Nat) (e : CreateEvent) (iso : String),
      ¬(e.priority = 1 ∨ e.priority = 2 ∨ e.priority = 3) →
      EventDatabase.addEvent db n e iso = .error (.invalidPriority e.priority)) ∧
    (∀ (db : List Event) (n : Nat) (e : CreateEvent) (iso : String),
      (e.priority = 1 ∨ e.priority = 2 ∨ e.priority = 3) →
      EventDatabase.addEvent db n e iso =
        .ok (db ++ [{ id := n, title := e.title, description := e.description,
                      date := e.date, time := e.time, priority := e.priority,
                      completed := false, created_at := iso, updated_at := none }], n)) ∧
    (∀ (db : List Event) (id : Nat) (u : UpdateEvent) (iso : String) (p : Int),
      u.priority = some p → ¬(p = 1 ∨ p = 2 ∨ p = 3) →
      EventDatabase.updateEvent db id u iso = .error (.invalidPriority p)) ∧
    (∀ (db : List Event) (id : Nat) (u : UpdateEvent) (iso : String) (p : Int),
      u.priority = some p → (p = 1 ∨ p = 2 ∨ p = 3) →
      ∀ q : Int, EventDatabase.updateEvent db id u iso ≠ .error (.invalidPriority q)) ∧
    (∀ (e : CreateEvent) (s : EventStore.StoreState), s.isDBReady = true →
      ¬(e.priority = 1 ∨ e.priority = 2 ∨ e.priority = 3) →
      EventStore.addEvent dtI c e s =
        .ok { s with loading := false,
                     error := some (DbError.invalidPriority e.priority).message }) ∧
    (∀ (id : Nat) (u : UpdateEvent) (s : EventStore.StoreState) (p : Int),
      s.isDBReady = true → u.priority = some p → ¬(p = 1 ∨ p = 2 ∨ p = 3) →
      EventStore.updateEvent dtI c id u s =
        .ok { s with loading := false,
                     error := some (DbError.invalidPriority p).message }) := by
  refine ⟨?_, ?_, ?_, ?_, ?_, ?_, ?_, ?_, ?_⟩
  · exact fun p h => EventDatabase.validatePriority_ok h
  · exact fun p h => EventDatabase.validatePriority_err h
  · intro p
    rfl
  · exact fun db n e iso h => EventDatabase.addEvent_invalid h db n iso
  · intro db n e iso h
    unfold EventDatabase.addEvent
    rw [EventDatabase.validatePriority_ok h]
  · exact fun db id u iso p hp h => EventDatabase.updateEvent_invalid hp h db id iso
  · intro db id u iso p hp h q
    unfold EventDatabase.updateEvent
    rw [hp]
    simp only [EventDatabase.validatePriority_ok h]
    rcases hf : db.find? (fun e => e.id == id) with _ | ev
    · simp [hf]
    · rw [hf]
      split
      · simp
      · split <;> simp
  · intro e s hready h
    unfold EventStore.addEvent
    rw [hready]
    simp only [Bool.true_eq_false, if_false]
    rw [EventDatabase.addEvent_invalid h]
  · intro id u s p hready hp h
    unfold EventStore.updateEvent
    rw [hready]
    simp only [Bool.true_eq_false, if_false]
    rw [EventDatabase.updateEvent_invalid hp h]

/-- Witness for C3: the illegal priority 5 is rejected by the store's
`addEvent` on the sample state without touching the records, the illegal
priority 0 is rejected by `updateEvent`, and the legal priority 2 passes
validation. -/
theorem priority_validation_spec_witness :
    EventStore.addEvent dtC clk1 ceBad s0 =
      .ok { s0 with loading := false,
                    error := some (DbError.invalidPriority 5).message } ∧
    EventStore.updateEvent dtC clk1 2 uBad s0 =
      .ok { s0 with loading := false,
                    error := some (DbError.invalidPriority 0).message } ∧
    EventDatabase.validatePriority 2 = .ok () := by
  have h := priority_validation_spec dtC clk1
  refine ⟨h.2.2.2.2.2.2.2.1 ceBad s0 rfl (by decide), ?_, h.1 2 (by omega)⟩
  exact h.2.2.2.2.2.2.2.2 2 uBad s0 0 rfl rfl (by decide)

/-- Records with the same primary key coincide when keys are unique. -/
theorem mem_id_unique {db : List Event} (hnodup : (db.map Event.id).Nodup)
    {x y : Event} (hx : x ∈ db) (hy : y ∈ db) (hxy : x.id = y.id) : x = y :=
  List.inj_on_of_nodup_map hnodup hx hy hxy

namespace EventDatabase

/-- A successful completion write leaves every record with the target id
completed, given unique primary keys. -/
theorem markCompleted_sets {db : List Event} {id : Nat} {iso : String} {db2 : List Event}
    (hnodup : (db.map Event.id).Nodup)
    (h : markEventAsCompleted db id true iso = .ok db2) :
    ∀ x ∈ db2, x.id = id → x.completed = true := by
  unfold markEventAsCompleted updateEvent at h
  rcases hf : db.find? (fun e => e.id == id) with _ | ev
  · rw [hf] at h
    simp at h
  · rw [hf] at h
    dsimp only at h
    have hev : ev ∈ db := List.mem_of_find?_eq_some hf
    have hevid : ev.id = id := by
      have := List.find?_some hf
      simpa using this
    by_cases hn : needsUpdate ev { completed := some true } = true
    · rw [if_pos hn] at h
      have hdb2 : db2 = db.map (fun e => if e.id == id then
          mergeEvent ev { completed := some true } iso else e) := by
        exact (Except.ok.inj h).symm
      subst hdb2
      intro x hx hxid
      rcases List.mem_map.mp hx with ⟨y, hy, hxy⟩
      by_cases hyid : (y.id == id) = true
      · rw [if_pos hyid] at hxy
        rw [← hxy]
        rfl
      · rw [if_neg hyid] at hxy
        subst hxy
        exact absurd (by simpa using hxid) hyid
    · rw [if_neg hn] at h
      have hdb2 : db2 = db := (Except.ok.inj h).symm
      subst hdb2
      have hevc : ev.completed = true := by
        cases hc : ev.completed
        · exfalso
          apply hn
          simp [needsUpdate, hc]
        · rfl
      intro x hx hxid
      rw [mem_id_unique hnodup hx hev (hxid.trans hevid.symm)]
      exact hevc

/-- A completion write (with `completed := true`) preserves the property
that every record with a given id is completed. -/
theorem markCompleted_true_keeps {db db2 : List Event} {j : Nat} {iso : String} {i : Nat}
    (hP : ∀ x ∈ db, x.id = i → x.completed = true)
    (h : markEventAsCompleted db j true iso = .ok db2) :
    ∀ x ∈ db2, x.id = i → x.completed = true := by
  unfold markEventAsCompleted updateEvent at h
  rcases hf : db.find? (fun e => e.id == j) with _ | ev
  · rw [hf] at h
    simp at h
  · rw [hf] at h
    dsimp only at h
    by_cases hn : needsUpdate ev { completed := some true } = true
    · rw [if_pos hn] at h
      have hdb2 : db2 = db.map (fun e => if e.id == j then
          mergeEvent ev { completed := some true } iso else e) := (Except.ok.inj h).symm
      subst hdb2
      intro x hx hxid
      rcases List.mem_map.mp hx with ⟨y, hy, hxy⟩
      by_cases hyid : (y.id == j) = true
      · rw [if_pos hyid] at hxy
        rw [← hxy]
        rfl
      · rw [if_neg hyid] at hxy
        subst hxy
        exact hP _ hy hxid
    · rw [if_neg hn] at h
      have hdb2 : db2 = db := (Except.ok.inj h).symm
      subst hdb2
      exact hP
end EventDatabase

namespace EventStore

/-- The background completion writes issued by the reconcile pass
preserve the property that every record with a given id is completed. -/
theorem applyCompletions_keeps {i : Nat} (iso : String) (ids : List Nat) (db : List Event)
    (hP : ∀ x ∈ db, x.id = i → x.completed = true) :
    ∀ x ∈ applyCompletions db ids iso, x.id = i → x.completed = true := by
  induction ids generalizing db with
  | nil => exact hP
  | cons j rest ih =>
      unfold applyCompletions
      rw [List.foldl_cons]
      cases hm : EventDatabase.markEventAsCompleted db j true iso with
      | ok d2 =>
          have : ∀ x ∈ d2, x.id = i → x.completed = true :=
            EventDatabase.markCompleted_true_keeps hP hm
          simpa [applyCompletions, hm] using ih d2 this
      | error err =>
          simpa [applyCompletions, hm] using ih db hP

/-- The records after a refresh are either untouched or the result of the
reconcile pass's completion writes. -/
theorem refresh_dbEvents (dtI : DT) (c : Clock) (s : StoreState) :
    (refreshEvents dtI c s).dbEvents = s.dbEvents ∨
    ∃ ids, (refreshEvents dtI c s).dbEvents = applyCompletions s.dbEvents ids c.iso := by
  unfold refreshEvents
  repeat' split
  all_goals first
    | exact Or.inl rfl
    | exact Or.inr ⟨_, rfl⟩

/-- A refresh preserves the property that every record with a given id is
completed (its only writes are completion writes with `true`). -/
theorem refresh_keeps {i : Nat} (dtI : DT) (c : Clock) (s : StoreState)
    (hP : ∀ x ∈ s.dbEvents, x.id = i → x.completed = true) :
    ∀ x ∈ (refreshEvents dtI c s).dbEvents, x.id = i → x.completed = true := by
  rcases refresh_dbEvents dtI c s with h | ⟨ids, h⟩
  · rw [h]
    exact hP
  · rw [h]
    exact applyCompletions_keeps c.iso ids s.dbEvents hP

end EventStore

/-- A key that `lookup` misses heads no pair of the association list. -/
theorem lookup_none_keys {α β : Type} [BEq α] [LawfulBEq α] {l : List (α × β)} {a : α}
    (h : l.lookup a = none) : ∀ p ∈ l, p.1 ≠ a := by
  rw [List.lookup_eq_none_iff] at h
  intro p hp hpa
  have := h p hp
  simp [hpa] at this

/-- A successful `lookup` exhibits a member of the association list. -/
theorem lookup_some_mem {α β : Type} [BEq α] [LawfulBEq α] {l : List (α × β)} {a : α} {b : β}
    (h : l.lookup a = some b) : (a, b) ∈ l := by
  rw [List.lookup_eq_some_iff] at h
  rcases h with ⟨l1, l2, rfl, _⟩
  simp

/-- With duplicate-free keys, membership determines `lookup`. -/
theorem keys_nodup_lookup {α β : Type} [BEq α] [LawfulBEq α] {l : List (α × β)}
    (hnodup : (l.map Prod.fst).Nodup) {a : α} {b : β} (hmem : (a, b) ∈ l) :
    l.lookup a = some b := by
  induction l with
  | nil => simp at hmem
  | cons q rest ih =>
      rcases List.mem_cons.mp hmem with hq | hq
      · subst hq
        simp
      · have hqa : q.1 ≠ a := by
          intro hqa
          have : a ∈ rest.map Prod.fst := by
            exact List.mem_map.mpr ⟨(a, b), hq, rfl⟩
          rw [← hqa] at this
          exact (List.nodup_cons.mp hnodup).1 this
        rw [List.lookup_cons]
        have : (a == q.1) = false := by
          simp
          exact fun hh => hqa hh.symm
        rw [this]
        exact ih (List.nodup_cons.mp hnodup).2 hq

namespace EventStore

/-- A fresh cache write is found under its key. -/
theorem lookup_updateCache (cache : List (String × CacheEntry)) (key : String)
    (nowMs : Int) (events : List Event) :
    (updateCache cache key nowMs events).lookup key =
      some { timestamp := nowMs, events := events } := by
  unfold updateCache
  rw [List.lookup_append]
  have hnone : (cache.filter (fun kv => kv.1 != key)).lookup key = none := by
    rw [List.lookup_eq_none_iff]
    intro p hp
    have h2 := List.of_mem_filter hp
    simp only [bne_iff_ne] at h2 ⊢
    exact h2.symm
  rw [hnone]
  simp

/-- Branch lemma: a ready refresh on an invalid cache entry takes the
storage-query path. -/
theorem refresh_miss (dtI : DT) (c : Clock) (s : StoreState)
    (hready : s.isDBReady = true)
    (hmiss : isCacheValid s.cache (cacheKeyOf s.selectedDate) c.ms = false) :
    refreshEvents dtI c s =
      { s with
        dbEvents := applyCompletions s.dbEvents
          (checkAndUpdatePastEvents dtI c.ms (fetchedOf s)).2 c.iso,
        timers := (checkAndUpdatePastEvents dtI c.ms (fetchedOf s)).1.foldl
          (fun ts e => scheduleEventCheck dtI c.ms e ts) s.timers,
        cache := updateCache s.cache (cacheKeyOf s.selectedDate) c.ms
          (checkAndUpdatePastEvents dtI c.ms (fetchedOf s)).1,
        events := (checkAndUpdatePastEvents dtI c.ms (fetchedOf s)).1,
        loading := false,
        queryLog := s.queryLog ++ [cacheKeyOf s.selectedDate] } := by
  unfold refreshEvents
  rw [hready, hmiss]
  rw [if_neg (by simp), if_neg (by simp)]

/-- Branch lemma: a ready refresh on a valid cache entry is served from
the cache. -/
theorem refresh_hit (dtI : DT) (c : Clock) (s : StoreState) (entry : CacheEntry)
    (hready : s.isDBReady = true)
    (hvalid : isCacheValid s.cache (cacheKeyOf s.selectedDate) c.ms = true)
    (hlook : s.cache.lookup (cacheKeyOf s.selectedDate) = some entry) :
    refreshEvents dtI c s =
      { s with
        dbEvents := applyCompletions s.dbEvents
          (checkAndUpdatePastEvents dtI c.ms entry.events).2 c.iso,
        events := (checkAndUpdatePastEvents dtI c.ms entry.events).1,
        loading := false } := by
  unfold refreshEvents
  rw [hready, hvalid, hlook]
  rw [if_neg (by simp), if_pos rfl]

end EventStore

/-- C2 counterexample: at an event whose datetime equals the current
instant (`combine(date,time) = now`, so `combine(date,time) <= now`) and
which is not completed, `scheduleEventCheck` is not a no-op — the code
only returns early on `isBefore(eventDateTime, now)`, a strict
comparison, so it arms a zero-delay timer here. -/
theorem scheduleEventCheck_at_now_counterexample :
    evFut.completed = false ∧
    dtC evFut.date evFut.time ≤ 100 ∧
    EventStore.scheduleEventCheck dtC 100 evFut tsEmpty ≠ tsEmpty := by
  decide

/-- C2 (amended).  `scheduleEventCheck` is a no-op when the event is
completed or its datetime is strictly before now; otherwise (datetime at
or after now) it cancels the timer registered for the id, arms exactly
one new one-shot timer with delay `combine(date,time) − now` (zero when
the datetime equals now), and registers it under the event id with a
fresh handle.  A timer that fires persists `completed = true` for its
event id, publishes the snapshot of a full refresh of the current view,
and removes its own registration from the timer map. -/
theorem scheduleEventCheck_spec (dtI : DT) (nowMs : Int) (e : Event) (ts : EventStore.Timers) :
    (e.completed = true ∨ dtI e.date e.time < nowMs →
      EventStore.scheduleEventCheck dtI nowMs e ts = ts) ∧
    (e.completed = false → nowMs ≤ dtI e.date e.time →
      (EventStore.scheduleEventCheck dtI nowMs e ts).live =
        ts.live.filter (fun t => ts.registry.lookup e.id != some t.handle) ++
          [{ handle := ts.nextHandle, eventId := e.id,
             delay := dtI e.date e.time - nowMs }] ∧
      (EventStore.scheduleEventCheck dtI nowMs e ts).registry =
        ts.registry.filter (fun p => p.1 != e.id) ++ [(e.id, ts.nextHandle)] ∧
      (EventStore.scheduleEventCheck dtI nowMs e ts).nextHandle = ts.nextHandle + 1) ∧
    (∀ (c : Clock) (s : EventStore.StoreState) (h : Nat) (t : EventStore.LiveTimer)
        (db2 : List Event),
      s.timers.live.find? (fun x => x.handle == h) = some t →
      (s.dbEvents.map Event.id).Nodup →
      EventDatabase.markEventAsCompleted s.dbEvents t.eventId true c.iso = .ok db2 →
      (∀ x ∈ (EventStore.fireTimer dtI c h s).dbEvents, x.id = t.eventId → x.completed = true) ∧
      (∀ p ∈ (EventStore.fireTimer dtI c h s).timers.registry, p.1 ≠ t.eventId) ∧
      (EventStore.fireTimer dtI c h s).events =
        (EventStore.refreshEvents dtI c
          { s with dbEvents := db2,
                   timers := { s.timers with
                     live := s.timers.live.filter (fun x => x.handle != h) } }).events) := by
  refine ⟨?_, ?_, ?_⟩
  · intro h0
    unfold EventStore.scheduleEventCheck
    rcases h0 with hc | hlt
    · rw [if_pos hc]
    · by_cases hc : e.completed = true
      · rw [if_pos hc]
      · rw [if_neg hc, if_pos hlt]
  · intro hc hle
    have hnlt : ¬ dtI e.date e.time < nowMs := not_lt.mpr hle
    unfold EventStore.scheduleEventCheck
    rw [if_neg (by simp [hc]), if_neg hnlt]
    unfold EventStore.armNew EventStore.clearCheck
    cases hl : ts.registry.lookup e.id with
    | none =>
        refine ⟨?_, ?_, rfl⟩
        · have hf : ts.live.filter (fun t => (none : Option Nat) != some t.handle) =
              ts.live :=
            List.filter_eq_self.mpr (fun a _ => rfl)
          dsimp only
          rw [hf]
        · have hr : ts.registry.filter (fun p => p.1 != e.id) = ts.registry := by
            apply List.filter_eq_self.mpr
            intro p hp
            simpa [bne_iff_ne] using lookup_none_keys hl p hp
          dsimp only
          rw [hr]
    | some h0 =>
        refine ⟨?_, rfl, rfl⟩
        have hf : ts.live.filter (fun t => (some h0 : Option Nat) != some t.handle) =
            ts.live.filter (fun t => t.handle != h0) := by
          apply List.filter_congr
          intro t _
          rw [Bool.eq_iff_iff]
          simp [bne_iff_ne, ne_comm]
        dsimp only
        rw [hf]
  · intro c s h t db2 hfind hnodup hmark
    have hresult : EventStore.fireTimer dtI c h s =
        { EventStore.refreshEvents dtI c
            { s with dbEvents := db2,
                     timers := { s.timers with
                       live := s.timers.live.filter (fun x => x.handle != h) } } with
          timers := { (EventStore.refreshEvents dtI c
              { s with dbEvents := db2,
                       timers := { s.timers with
                         live := s.timers.live.filter (fun x => x.handle != h) } }).timers with
            registry := (EventStore.refreshEvents dtI c
              { s with dbEvents := db2,
                       timers := { s.timers with
                         live := s.timers.live.filter (fun x => x.handle != h) } }).timers.registry.filter
              (fun p => p.1 != t.eventId) } } := by
      unfold EventStore.fireTimer
      rw [hfind]
      dsimp only
      rw [hmark]
    refine ⟨?_, ?_, ?_⟩
    · rw [hresult]
      dsimp only
      apply EventStore.refresh_keeps
      intro x hx hxid
      exact EventDatabase.markCompleted_sets hnodup hmark x hx hxid
    · rw [hresult]
      dsimp only
      intro p hp
      have := List.of_mem_filter hp
      simpa [bne_iff_ne] using this
    · rw [hresult]

/-- Witness for C2: the no-op branch on a completed event, the arming
branch on the future sample event, and the effects of firing the armed
sample timer. -/
theorem scheduleEventCheck_spec_witness :
    (EventStore.scheduleEventCheck dtC 0 evDone tsEmpty = tsEmpty) ∧
    ((EventStore.scheduleEventCheck dtC 40 evFut tsEmpty).live =
      tsEmpty.live.filter (fun t => tsEmpty.registry.lookup evFut.id != some t.handle) ++
        [{ handle := tsEmpty.nextHandle, eventId := evFut.id,
           delay := dtC evFut.date evFut.time - 40 }]) ∧
    (∀ x ∈ (EventStore.fireTimer dtC clk9 7 sFire).dbEvents, x.id = 1 → x.completed = true) ∧
    (∀ p ∈ (EventStore.fireTimer dtC clk9 7 sFire).timers.registry, p.1 ≠ 1) := by
  have hfire := (scheduleEventCheck_spec dtC clk9.ms evFut tsEmpty).2.2 clk9 sFire 7
    { handle := 7, eventId := 1, delay := 60 } dbFired rfl (by decide) rfl
  exact ⟨(scheduleEventCheck_spec dtC 0 evDone tsEmpty).1 (Or.inl rfl),
    ((scheduleEventCheck_spec dtC 40 evFut tsEmpty).2.1 rfl (by decide)).1,
    hfire.1, hfire.2.1⟩

namespace EventStore

/-- The cache-validity test is the TTL test on the looked-up entry. -/
theorem isCacheValid_of_lookup_some {cache : List (String × CacheEntry)} {key : String}
    {entry : CacheEntry} (nowMs : Int) (hl : cache.lookup key = some entry) :
    isCacheValid cache key nowMs = decide (nowMs - entry.timestamp < CACHE_DURATION) := by
  unfold isCacheValid
  rw [hl]

/-- A ready fetch whose cache entry is stale or absent queries storage. -/
theorem fetch_miss_of (dtI : DT) (c : Clock) (s : StoreState)
    (hready : s.isDBReady = true)
    (hmiss : isCacheValid s.cache (cacheKeyOf s.selectedDate) c.ms = false) :
    fetchEvents dtI c s =
      { s with
        dbEvents := applyCompletions s.dbEvents
          (checkAndUpdatePastEvents dtI c.ms (fetchedOf s)).2 c.iso,
        timers := (checkAndUpdatePastEvents dtI c.ms (fetchedOf s)).1.foldl
          (fun ts e => scheduleEventCheck dtI c.ms e ts) s.timers,
        cache := updateCache s.cache (cacheKeyOf s.selectedDate) c.ms
          (checkAndUpdatePastEvents dtI c.ms (fetchedOf s)).1,
        events := (checkAndUpdatePastEvents dtI c.ms (fetchedOf s)).1,
        loading := false,
        error := none,
        queryLog := s.queryLog ++ [cacheKeyOf s.selectedDate] } := by
  unfold fetchEvents
  rw [if_neg (by simp [hready])]
  exact refresh_miss dtI c { s with loading := true, error := none } hready hmiss

/-- A ready fetch whose cache entry is fresh is served from that entry
without a storage query. -/
theorem fetch_hit_of_cached (dtI : DT) (c : Clock) (s : StoreState) (entry : CacheEntry)
    (hready : s.isDBReady = true)
    (hlook : s.cache.lookup (cacheKeyOf s.selectedDate) = some entry)
    (httl : c.ms - entry.timestamp < CACHE_DURATION) :
    fetchEvents dtI c s =
      { s with
        dbEvents := applyCompletions s.dbEvents
          (checkAndUpdatePastEvents dtI c.ms entry.events).2 c.iso,
        events := (checkAndUpdatePastEvents dtI c.ms entry.events).1,
        loading := false,
        error := none } := by
  unfold fetchEvents
  rw [if_neg (by simp [hready])]
  have hvalid : isCacheValid s.cache (cacheKeyOf s.selectedDate) c.ms = true := by
    rw [isCacheValid_of_lookup_some c.ms hlook]
    simpa using httl
  exact refresh_hit dtI c { s with loading := true, error := none } entry hready hvalid hlook

end EventStore

/-- C5.  A cache entry is used by refresh exactly when it exists and is
younger than the 5000 ms TTL: the first ready fetch on an invalid entry
queries storage; a second fetch within the TTL (no intervening mutation)
adds no storage query and publishes the reconcile pass of the snapshot
cached by the first fetch; a second fetch once the TTL has elapsed issues
a new storage query. -/
theorem cache_ttl_spec (dtI : DT) (c1 c2 : Clock) (s : EventStore.StoreState)
    (hready : s.isDBReady = true)
    (hmiss : EventStore.isCacheValid s.cache (EventStore.cacheKeyOf s.selectedDate) c1.ms
      = false) :
    (∀ (cache : List (String × EventStore.CacheEntry)) (key : String) (nowMs : Int),
      EventStore.isCacheValid cache key nowMs = true ↔
        ∃ entry, cache.lookup key = some entry ∧
          nowMs - entry.timestamp < EventStore.CACHE_DURATION) ∧
    ((EventStore.fetchEvents dtI c1 s).queryLog =
        s.queryLog ++ [EventStore.cacheKeyOf s.selectedDate]) ∧
    (c2.ms - c1.ms < EventStore.CACHE_DURATION →
      (EventStore.fetchEvents dtI c2 (EventStore.fetchEvents dtI c1 s)).queryLog =
        (EventStore.fetchEvents dtI c1 s).queryLog ∧
      (EventStore.fetchEvents dtI c2 (EventStore.fetchEvents dtI c1 s)).events =
        (EventStore.checkAndUpdatePastEvents dtI c2.ms
          (EventStore.fetchEvents dtI c1 s).events).1) ∧
    (EventStore.CACHE_DURATION ≤ c2.ms - c1.ms →
      (EventStore.fetchEvents dtI c2 (EventStore.fetchEvents dtI c1 s)).queryLog =
        (EventStore.fetchEvents dtI c1 s).queryLog ++
          [EventStore.cacheKeyOf s.selectedDate]) := by
  have hs1 := EventStore.fetch_miss_of dtI c1 s hready hmiss
  have h1ready : (EventStore.fetchEvents dtI c1 s).isDBReady = true := by
    rw [hs1]
    exact hready
  have h1sel : (EventStore.fetchEvents dtI c1 s).selectedDate = s.selectedDate := by
    rw [hs1]
  have h1look : (EventStore.fetchEvents dtI c1 s).cache.lookup
      (EventStore.cacheKeyOf (EventStore.fetchEvents dtI c1 s).selectedDate) =
      some { timestamp := c1.ms,
             events := (EventStore.checkAndUpdatePastEvents dtI c1.ms
               (EventStore.fetchedOf s)).1 } := by
    rw [h1sel, hs1]
    exact EventStore.lookup_updateCache _ _ _ _
  have h1events : (EventStore.fetchEvents dtI c1 s).events =
      (EventStore.checkAndUpdatePastEvents dtI c1.ms (EventStore.fetchedOf s)).1 := by
    rw [hs1]
  refine ⟨?_, ?_, ?_, ?_⟩
  · intro cache key nowMs
    unfold EventStore.isCacheValid
    cases hl : cache.lookup key with
    | none => simp
    | some entry => simp
  · rw [hs1]
  · intro httl
    have hs2 := EventStore.fetch_hit_of_cached dtI c2 (EventStore.fetchEvents dtI c1 s)
      { timestamp := c1.ms,
        events := (EventStore.checkAndUpdatePastEvents dtI c1.ms (EventStore.fetchedOf s)).1 }
      h1ready h1look (by simpa using httl)
    constructor
    · rw [hs2]
    · rw [hs2, h1events]
  · intro httl
    have hmiss2 : EventStore.isCacheValid (EventStore.fetchEvents dtI c1 s).cache
        (EventStore.cacheKeyOf (EventStore.fetchEvents dtI c1 s).selectedDate) c2.ms
        = false := by
      rw [EventStore.isCacheValid_of_lookup_some c2.ms h1look]
      simpa using not_lt.mpr httl
    have hs2 := EventStore.fetch_miss_of dtI c2 (EventStore.fetchEvents dtI c1 s)
      h1ready hmiss2
    rw [hs2, h1sel]

/-- Witness for C5: on the sample store with an empty cache, the first
fetch queries storage, a fetch 1000 ms later is a cache hit, and a fetch
9000 ms later queries storage again. -/
theorem cache_ttl_spec_witness :
    ((EventStore.fetchEvents dtC clk1 s0).queryLog = ["all"]) ∧
    ((EventStore.fetchEvents dtC clk2 (EventStore.fetchEvents dtC clk1 s0)).queryLog =
      (EventStore.fetchEvents dtC clk1 s0).queryLog) ∧
    ((EventStore.fetchEvents dtC clk3 (EventStore.fetchEvents dtC clk1 s0)).queryLog =
      (EventStore.fetchEvents dtC clk1 s0).queryLog ++ ["all"]) := by
  have h := cache_ttl_spec dtC clk1 clk2 s0 rfl rfl
  have h3 := cache_ttl_spec dtC clk1 clk3 s0 rfl rfl
  exact ⟨h.2.1, (h.2.2.1 (by decide)).1, h3.2.2.2 (by decide)⟩

/-- Deleting every key of an association list by folding over its own key
set empties it. -/
theorem foldl_filter_keys {ks : List String} :
    ∀ (c : List (String × EventStore.CacheEntry)), (∀ kv ∈ c, kv.1 ∈ ks) →
      ks.foldl (fun m key => m.filter (fun kv => kv.1 != key)) c = [] := by
  induction ks with
  | nil =>
      intro c hc
      cases c with
      | nil => rfl
      | cons kv rest => exact absurd (hc kv (by simp)) (by simp)
  | cons k ks ih =>
      intro c hc
      rw [List.foldl_cons]
      apply ih
      intro kv hkv
      have hmem := List.of_mem_filter hkv
      have hin := hc kv (List.mem_of_mem_filter hkv)
      rcases List.mem_cons.mp hin with h | h
      · exact absurd h (by simpa [bne_iff_ne] using hmem)
      · exact h

/-- The `invalidateCache` loop removes every entry, whatever its key. -/
theorem invalidateCache_nil (cache : List (String × EventStore.CacheEntry)) :
    EventStore.invalidateCache cache = [] := by
  unfold EventStore.invalidateCache
  apply foldl_filter_keys
  intro kv hkv
  exact List.mem_map.mpr ⟨kv, hkv, rfl⟩

/-- C6.  Every successful store mutation (`addEvent`, `updateEvent`,
`deleteEvent`, `markEventAsCompleted`) clears every cache entry — not
just the mutated key — so the refresh it triggers bypasses the cache
regardless of any entry's remaining TTL and issues a Record Store
query. -/
theorem mutation_invalidates_cache_spec (dtI : DT) (c : Clock) (s : EventStore.StoreState)
    (hready : s.isDBReady = true) :
    (∀ cache, EventStore.invalidateCache cache = []) ∧
    (∀ (e : CreateEvent) (r : List Event × Nat),
      EventDatabase.addEvent s.dbEvents s.nextId e c.iso = .ok r →
      ∃ s2, EventStore.addEvent dtI c e s = .ok s2 ∧
        s2.queryLog = s.queryLog ++ [EventStore.cacheKeyOf s.selectedDate]) ∧
    (∀ (id : Nat) (u : UpdateEvent) (db2 : List Event),
      EventDatabase.updateEvent s.dbEvents id u c.iso = .ok db2 →
      ∃ s2, EventStore.updateEvent dtI c id u s = .ok s2 ∧
        s2.queryLog = s.queryLog ++ [EventStore.cacheKeyOf s.selectedDate]) ∧
    (∀ id : Nat,
      ∃ s2, EventStore.deleteEvent dtI c id s = .ok s2 ∧
        s2.queryLog = s.queryLog ++ [EventStore.cacheKeyOf s.selectedDate]) ∧
    (∀ (id : Nat) (b : Bool) (db2 : List Event),
      EventDatabase.markEventAsCompleted s.dbEvents id b c.iso = .ok db2 →
      ∃ s2, EventStore.markEventAsCompleted dtI c id b s = .ok s2 ∧
        s2.queryLog = s.queryLog ++ [EventStore.cacheKeyOf s.selectedDate]) := by
  have hmiss0 : ∀ key : String, EventStore.isCacheValid [] key c.ms = false := fun _ => rfl
  refine ⟨invalidateCache_nil, ?_, ?_, ?_, ?_⟩
  · intro e r hdb
    have hop : EventStore.addEvent dtI c e s =
        .ok (EventStore.refreshEvents dtI c
          { s with loading := true, error := none, dbEvents := r.1,
                   nextId := s.nextId + 1,
                   cache := EventStore.invalidateCache s.cache }) := by
      unfold EventStore.addEvent
      rw [if_neg (by simp [hready])]
      dsimp only
      rw [hdb]
    have hmiss : EventStore.isCacheValid (EventStore.invalidateCache s.cache)
        (EventStore.cacheKeyOf s.selectedDate) c.ms = false := by
      rw [invalidateCache_nil]
      exact hmiss0 _
    have href := EventStore.refresh_miss dtI c
      { s with loading := true, error := none, dbEvents := r.1,
               nextId := s.nextId + 1,
               cache := EventStore.invalidateCache s.cache } hready hmiss
    exact ⟨_, hop, by rw [href]⟩
  · intro id u db2 hdb
    have hop : EventStore.updateEvent dtI c id u s =
        .ok (EventStore.refreshEvents dtI c
          { s with loading := true, error := none, dbEvents := db2,
                   timers := EventStore.clearCheck s.timers id,
                   cache := EventStore.invalidateCache s.cache }) := by
      unfold EventStore.updateEvent
      rw [if_neg (by simp [hready])]
      dsimp only
      rw [hdb]
    have hmiss : EventStore.isCacheValid (EventStore.invalidateCache s.cache)
        (EventStore.cacheKeyOf s.selectedDate) c.ms = false := by
      rw [invalidateCache_nil]
      exact hmiss0 _
    have href := EventStore.refresh_miss dtI c
      { s with loading := true, error := none, dbEvents := db2,
               timers := EventStore.clearCheck s.timers id,
               cache := EventStore.invalidateCache s.cache } hready hmiss
    exact ⟨_, hop, by rw [href]⟩
  · intro id
    have hop : EventStore.deleteEvent dtI c id s =
        .ok (EventStore.refreshEvents dtI c
          { s with loading := true, error := none,
                   timers := EventStore.clearCheck s.timers id,
                   dbEvents := EventDatabase.deleteEvent s.dbEvents id,
                   cache := EventStore.invalidateCache s.cache }) := by
      unfold EventStore.deleteEvent
      rw [if_neg (by simp [hready])]
    have hmiss : EventStore.isCacheValid (EventStore.invalidateCache s.cache)
        (EventStore.cacheKeyOf s.selectedDate) c.ms = false := by
      rw [invalidateCache_nil]
      exact hmiss0 _
    have href := EventStore.refresh_miss dtI c
      { s with loading := true, error := none,
               timers := EventStore.clearCheck s.timers id,
               dbEvents := EventDatabase.deleteEvent s.dbEvents id,
               cache := EventStore.invalidateCache s.cache } hready hmiss
    exact ⟨_, hop, by rw [href]⟩
  · intro id b db2 hdb
    have hop : EventStore.markEventAsCompleted dtI c id b s =
        .ok (EventStore.refreshEvents dtI c
          { s with loading := true, error := none,
                   timers := if b then EventStore.clearCheck s.timers id else s.timers,
                   dbEvents := db2,
                   cache := EventStore.invalidateCache s.cache }) := by
      unfold EventStore.markEventAsCompleted
      rw [if_neg (by simp [hready])]
      dsimp only
      rw [hdb]
    have hmiss : EventStore.isCacheValid (EventStore.invalidateCache s.cache)
        (EventStore.cacheKeyOf s.selectedDate) c.ms = false := by
      rw [invalidateCache_nil]
      exact hmiss0 _
    have href := EventStore.refresh_miss dtI c
      { s with loading := true, error := none,
               timers := if b then EventStore.clearCheck s.timers id else s.timers,
               dbEvents := db2,
               cache := EventStore.invalidateCache s.cache } hready hmiss
    exact ⟨_, hop, by rw [href]⟩

/-- Witness for C6: a populated cache is fully cleared, and a delete and
an insert on the sample store both force a fresh storage query. -/
theorem mutation_invalidates_cache_spec_witness :
    EventStore.invalidateCache
      [("all", { timestamp := 0, events := [] }),
       ("2025-01-10", { timestamp := 0, events := [] })] = [] ∧
    (∃ s2, EventStore.deleteEvent dtC clk1 2 s0 = .ok s2 ∧
      s2.queryLog = s0.queryLog ++ ["all"]) ∧
    (∃ s2, EventStore.addEvent dtC clk1 ceGood s0 = .ok s2 ∧
      s2.queryLog = s0.queryLog ++ ["all"]) := by
  have h := mutation_invalidates_cache_spec dtC clk1 s0 rfl
  exact ⟨h.1 _, h.2.2.2.1 2, h.2.1 ceGood _ rfl⟩

/-- A reconcile pass over a list with no past-due incomplete event is the
identity and issues no persistence update. -/
theorem reconcile_no_past (dtI : DT) (nowMs : Int) (l : List Event)
    (h : ∀ e ∈ l, e.completed = false → ¬ dtI e.date e.time < nowMs) :
    EventStore.checkAndUpdatePastEvents dtI nowMs l = (l, []) := by
  induction l with
  | nil => rfl
  | cons e rest ih =>
      have hcond : ¬(e.completed = false ∧ dtI e.date e.time < nowMs) := by
        rintro ⟨h1, h2⟩
        exact h e (by simp) h1 h2
      unfold EventStore.checkAndUpdatePastEvents EventStore.reconcileStep
      rw [if_neg hcond, ih (fun x hx => h x (List.mem_cons_of_mem e hx))]

/-- C9 counterexample: the store's `deleteEvent` on an id absent from
storage does not fail — IndexedDB's `delete` resolves as a no-op — so no
error is published and the records are untouched. -/
theorem deleteEvent_absent_counterexample :
    (∀ e ∈ s0.dbEvents, e.id ≠ 99) ∧
    EventDatabase.deleteEvent s0.dbEvents 99 = s0.dbEvents ∧
    EventStore.storeError (EventStore.deleteEvent dtC clk1 99 s0) = none ∧
    EventStore.storeDb (EventStore.deleteEvent dtC clk1 99 s0) = some s0.dbEvents := by
  decide

/-- C9 (amended).  Deleting an id absent from storage succeeds: the
Record Store resolves the delete as a no-op, the store publishes no error
(`error = none`), the stored records are unchanged, and the published
list is the refresh of those unchanged records (here, with no past-due
incomplete event, the sorted full scan). -/
theorem deleteEvent_absent_spec (dtI : DT) (c : Clock) (id : Nat) (s : EventStore.StoreState)
    (hready : s.isDBReady = true)
    (hsel : s.selectedDate = none)
    (habsent : ∀ e ∈ s.dbEvents, e.id ≠ id)
    (hnopast : ∀ e ∈ s.dbEvents, e.completed = false → ¬ dtI e.date e.time < c.ms) :
    ∃ s2, EventStore.deleteEvent dtI c id s = .ok s2 ∧
      s2.error = none ∧
      s2.dbEvents = s.dbEvents ∧
      s2.events = EventDatabase.getAllEvents s.dbEvents := by
  have hdel : EventDatabase.deleteEvent s.dbEvents id = s.dbEvents := by
    apply List.filter_eq_self.mpr
    intro e he
    simpa [bne_iff_ne] using habsent e he
  have hop : EventStore.deleteEvent dtI c id s =
      .ok (EventStore.refreshEvents dtI c
        { s with loading := true, error := none,
                 timers := EventStore.clearCheck s.timers id,
                 dbEvents := EventDatabase.deleteEvent s.dbEvents id,
                 cache := EventStore.invalidateCache s.cache }) := by
    unfold EventStore.deleteEvent
    rw [if_neg (by simp [hready])]
  have hmiss : EventStore.isCacheValid (EventStore.invalidateCache s.cache)
      (EventStore.cacheKeyOf s.selectedDate) c.ms = false := by
    rw [invalidateCache_nil]
    rfl
  have href := EventStore.refresh_miss dtI c
    { s with loading := true, error := none,
             timers := EventStore.clearCheck s.timers id,
             dbEvents := EventDatabase.deleteEvent s.dbEvents id,
             cache := EventStore.invalidateCache s.cache } hready hmiss
  have hfetch : EventStore.fetchedOf
      ({ s with loading := true, error := none,
                timers := EventStore.clearCheck s.timers id,
                dbEvents := EventDatabase.deleteEvent s.dbEvents id,
                cache := EventStore.invalidateCache s.cache } : EventStore.StoreState) =
      EventDatabase.getAllEvents s.dbEvents := by
    unfold EventStore.fetchedOf
    dsimp only
    rw [hsel, hdel]
  have hmem : ∀ e ∈ EventDatabase.getAllEvents s.dbEvents,
      e.completed = false → ¬ dtI e.date e.time < c.ms := by
    intro e he
    exact hnopast e ((List.perm_insertionSort EventDatabase.dateTimeLe s.dbEvents).mem_iff.mp he)
  have hrec : EventStore.checkAndUpdatePastEvents dtI c.ms
      (EventDatabase.getAllEvents s.dbEvents) =
      (EventDatabase.getAllEvents s.dbEvents, []) :=
    reconcile_no_past dtI c.ms _ hmem
  refine ⟨_, hop, ?_, ?_, ?_⟩
  · rw [href]
  · rw [href]
    dsimp only
    rw [hfetch, hrec, hdel]
    rfl
  · rw [href]
    dsimp only
    rw [hfetch, hrec]

/-- Witness for C9's amended theorem: deleting the absent id 99 from the
sample store succeeds with no published error. -/
theorem deleteEvent_absent_spec_witness :
    ∃ s2, EventStore.deleteEvent dtC clk1 99 s0 = .ok s2 ∧
      s2.error = none ∧
      s2.dbEvents = s0.dbEvents ∧
      s2.events = EventDatabase.getAllEvents s0.dbEvents :=
  deleteEvent_absent_spec dtC clk1 99 s0 rfl rfl (by decide) (by decide)

/-- With duplicate-free keys an association list is functional. -/
theorem keys_nodup_inj {α β : Type} {l : List (α × β)} (h : (l.map Prod.fst).Nodup)
    {a : α} {b c : β} (hb : (a, b) ∈ l) (hc : (a, c) ∈ l) : b = c := by
  have := List.inj_on_of_nodup_map h hb hc rfl
  exact congrArg Prod.snd this

namespace EventStore

/-- Cancelling timeouts (filtering the live set) preserves timer
well-formedness. -/
theorem Timers.live_filter_WF {ts : Timers} (h : Timers.WF ts) (p : LiveTimer → Bool) :
    Timers.WF { ts with live := ts.live.filter p } := by
  obtain ⟨hreg, hlive, hlr, hlb, hrb⟩ := h
  refine ⟨hreg, ?_, ?_, ?_, hrb⟩
  · exact hlive.sublist ((List.filter_sublist _).map _)
  · intro t ht
    exact hlr t (List.mem_of_mem_filter ht)
  · intro t ht
    exact hlb t (List.mem_of_mem_filter ht)

/-- `clearCheck` (cancel + deregister the timer of one id) preserves
timer well-formedness. -/
theorem Timers.clearCheck_WF {ts : Timers} (h : Timers.WF ts) (id : Nat) :
    Timers.WF (clearCheck ts id) := by
  obtain ⟨hreg, hlive, hlr, hlb, hrb⟩ := h
  unfold clearCheck
  cases hl : ts.registry.lookup id with
  | none => exact ⟨hreg, hlive, hlr, hlb, hrb⟩
  | some h0 =>
      refine ⟨?_, ?_, ?_, ?_, ?_⟩
      · exact hreg.sublist ((List.filter_sublist _).map _)
      · exact hlive.sublist ((List.filter_sublist _).map _)
      · intro t ht
        have htl := List.mem_of_mem_filter ht
        have hth : t.handle ≠ h0 := by
          simpa [bne_iff_ne] using List.of_mem_filter ht
        have hpair := hlr t htl
        apply List.mem_filter.mpr
        refine ⟨hpair, ?_⟩
        simp only [bne_iff_ne]
        intro hteq
        exact hth (keys_nodup_inj hreg (hteq ▸ hpair) (lookup_some_mem hl))
      · intro t ht
        exact hlb t (List.mem_of_mem_filter ht)
      · intro q hq
        exact hrb q (List.mem_of_mem_filter hq)

/-- The id cleared by `clearCheck` heads no remaining registry entry. -/
theorem clearCheck_no_id {ts : Timers} (_hreg : (ts.registry.map Prod.fst).Nodup) (id : Nat) :
    ∀ q ∈ (clearCheck ts id).registry, q.1 ≠ id := by
  unfold clearCheck
  cases hl : ts.registry.lookup id with
  | none =>
      intro q hq
      exact lookup_none_keys hl q hq
  | some h0 =>
      intro q hq
      simpa [bne_iff_ne] using List.of_mem_filter hq

/-- `scheduleEventCheck` preserves timer well-formedness. -/
theorem Timers.schedule_WF {ts : Timers} (h : Timers.WF ts) (dtI : DT) (nowMs : Int)
    (e : Event) : Timers.WF (scheduleEventCheck dtI nowMs e ts) := by
  unfold scheduleEventCheck
  split
  · exact h
  · split
    · exact h
    · have hc := Timers.clearCheck_WF h e.id
      have hno := clearCheck_no_id h.1 e.id
      obtain ⟨hreg, hlive, hlr, hlb, hrb⟩ := hc
      unfold armNew
      refine ⟨?_, ?_, ?_, ?_, ?_⟩
      · rw [List.map_append]
        apply List.Nodup.append hreg (by simp)
        intro a ha hb
        simp only [List.map_cons, List.map_nil, List.mem_singleton] at hb
        subst hb
        rcases List.mem_map.mp ha with ⟨q, hq, hqa⟩
        exact hno q hq hqa
      · rw [List.map_append]
        apply List.Nodup.append hlive (by simp)
        intro a ha hb
        simp only [List.map_cons, List.map_nil, List.mem_singleton] at hb
        subst hb
        rcases List.mem_map.mp ha with ⟨t, ht, hta⟩
        have hlt := hlb t ht
        rw [hta] at hlt
        exact lt_irrefl _ hlt
      · intro t ht
        rcases List.mem_append.mp ht with ht | ht
        · exact List.mem_append_left _ (hlr t ht)
        · simp only [List.mem_singleton] at ht
          subst ht
          apply List.mem_append_right
          simp
      · intro t ht
        rcases List.mem_append.mp ht with ht | ht
        · exact lt_trans (hlb t ht) (Nat.lt_succ_self _)
        · simp only [List.mem_singleton] at ht
          subst ht
          exact Nat.lt_succ_self _
      · intro q hq
        rcases List.mem_append.mp hq with hq | hq
        · exact lt_trans (hrb q hq) (Nat.lt_succ_self _)
        · simp only [List.mem_singleton] at hq
          subst hq
          exact Nat.lt_succ_self _

/-- Arming a whole event list preserves timer well-formedness. -/
theorem Timers.foldl_schedule_WF {ts : Timers} (h : Timers.WF ts) (dtI : DT) (nowMs : Int)
    (l : List Event) :
    Timers.WF (l.foldl (fun ts e => scheduleEventCheck dtI nowMs e ts) ts) := by
  induction l generalizing ts with
  | nil => exact h
  | cons e rest ih =>
      rw [List.foldl_cons]
      exact ih (Timers.schedule_WF h dtI nowMs e)

/-- Under well-formedness, `cleanup` cancels every live timer and empties
the registry. -/
theorem cleanupTimers_empty {ts : Timers} (h : Timers.WF ts) :
    cleanupTimers ts = { live := [], registry := [], nextHandle := ts.nextHandle } := by
  obtain ⟨hreg, hlive, hlr, hlb, hrb⟩ := h
  unfold cleanupTimers
  have hl : ts.live.filter (fun t => ts.registry.all (fun p => p.2 != t.handle)) = [] := by
    rw [List.filter_eq_nil_iff]
    intro t ht
    have hpair := hlr t ht
    simp only [List.all_eq_true, not_forall]
    exact ⟨(t.eventId, t.handle), hpair, by simp⟩
  rw [hl]

end EventStore

namespace EventDatabase

/-- A successful update replaces a record in place: the primary-key
column is unchanged. -/
theorem updateEvent_ids {db db2 : List Event} {id : Nat} {u : UpdateEvent} {iso : String}
    (h : updateEvent db id u iso = .ok db2) : db2.map Event.id = db.map Event.id := by
  unfold updateEvent at h
  cases hv : (match u.priority with | some p => validatePriority p | none => Except.ok ()) with
  | error err =>
      rw [hv] at h
      simp at h
  | ok _ =>
      rw [hv] at h
      dsimp only at h
      rcases hf : db.find? (fun e => e.id == id) with _ | ev
      · rw [hf] at h
        simp at h
      · rw [hf] at h
        dsimp only at h
        by_cases hn : needsUpdate ev u = true
        · rw [if_pos hn] at h
          have hdb2 : db2 = db.map (fun e => if e.id == id then mergeEvent ev u iso else e) :=
            (Except.ok.inj h).symm
          subst hdb2
          rw [List.map_map]
          apply List.map_congr_left
          intro e he
          by_cases hid : (e.id == id) = true
          · have hevid : ev.id = id := by simpa using List.find?_some hf
            have heid : e.id = id := by simpa using hid
            simp only [Function.comp, if_pos hid]
            show (mergeEvent ev u iso).id = e.id
            rw [heid]
            exact hevid
          · have hne : ¬ e.id = id := by simpa using hid
            simp [Function.comp, hne]
        · rw [if_neg hn] at h
          have hdb2 : db2 = db := (Except.ok.inj h).symm
          rw [hdb2]

end EventDatabase

namespace EventStore

/-- The background completion writes preserve the primary-key column. -/
theorem applyCompletions_ids (iso : String) (ids : List Nat) (db : List Event) :
    (applyCompletions db ids iso).map Event.id = db.map Event.id := by
  induction ids generalizing db with
  | nil => rfl
  | cons j rest ih =>
      unfold applyCompletions
      rw [List.foldl_cons]
      cases hm : EventDatabase.markEventAsCompleted db j true iso with
      | ok d2 =>
          have h1 : d2.map Event.id = db.map Event.id :=
            EventDatabase.updateEvent_ids hm
          have h2 := ih d2
          unfold applyCompletions at h2
          simpa [hm, h1] using h2
      | error err =>
          have h2 := ih db
          unfold applyCompletions at h2
          simpa [hm] using h2

/-- Transport of key uniqueness along an unchanged key column. -/
theorem ids_eq_nodup {db db2 : List Event} (h : db2.map Event.id = db.map Event.id)
    (hn : (db.map Event.id).Nodup) : (db2.map Event.id).Nodup := by
  rw [h]
  exact hn

/-- Transport of the auto-increment bound along an unchanged key column. -/
theorem ids_eq_bound {db db2 : List Event} {n : Nat} (h : db2.map Event.id = db.map Event.id)
    (hb : ∀ e ∈ db, e.id < n) : ∀ e ∈ db2, e.id < n := by
  intro e he
  have hm : e.id ∈ db.map Event.id := by
    rw [← h]
    exact List.mem_map_of_mem Event.id he
  rcases List.mem_map.mp hm with ⟨y, hy, hyid⟩
  rw [← hyid]
  exact hb y hy

/-- A refresh preserves store well-formedness. -/
theorem StoreWF_refresh (dtI : DT) (c : Clock) (s : StoreState) (h : StoreWF s) :
    StoreWF (refreshEvents dtI c s) := by
  obtain ⟨htw, hnodup, hbound⟩ := h
  unfold refreshEvents
  split
  · exact ⟨htw, hnodup, hbound⟩
  · split
    · split
      · refine ⟨htw, ?_, ?_⟩
        · exact ids_eq_nodup (applyCompletions_ids c.iso _ s.dbEvents) hnodup
        · exact ids_eq_bound (applyCompletions_ids c.iso _ s.dbEvents) hbound
      · exact ⟨htw, hnodup, hbound⟩
    · refine ⟨Timers.foldl_schedule_WF htw dtI c.ms _, ?_, ?_⟩
      · exact ids_eq_nodup (applyCompletions_ids c.iso _ s.dbEvents) hnodup
      · exact ids_eq_bound (applyCompletions_ids c.iso _ s.dbEvents) hbound

end EventStore

namespace EventStore

/-- `clearCheck` only removes live timers. -/
theorem clearCheck_live_sub {ts : Timers} {id : Nat} {x : LiveTimer}
    (hx : x ∈ (clearCheck ts id).live) : x ∈ ts.live := by
  unfold clearCheck at hx
  cases hl : ts.registry.lookup id with
  | none =>
      rw [hl] at hx
      exact hx
  | some h0 =>
      rw [hl] at hx
      exact List.mem_of_mem_filter hx

/-- After the fired timeout leaves the live set, no live timer remains
for the fired event id (well-formedness gives at most one per id). -/
theorem fired_no_live_id {ts : Timers} {h : Nat} {t : LiveTimer} (hwf : Timers.WF ts)
    (hfind : ts.live.find? (fun x => x.handle == h) = some t) :
    ∀ x ∈ ts.live.filter (fun x => x.handle != h), x.eventId ≠ t.eventId := by
  obtain ⟨hreg, hlive, hlr, hlb, hrb⟩ := hwf
  intro x hx hxi
  have hxl := List.mem_of_mem_filter hx
  have hxh : x.handle ≠ h := by simpa [bne_iff_ne] using List.of_mem_filter hx
  have htl := List.mem_of_find?_eq_some hfind
  have hth : t.handle = h := by simpa using List.find?_some hfind
  have hpx := hlr x hxl
  have hpt := hlr t htl
  rw [hxi] at hpx
  have hhx := keys_nodup_inj hreg hpx hpt
  exact hxh (hhx.trans hth)

/-- Arming an event that is completed whenever it carries the watched id
never introduces a live timer for that id. -/
theorem schedule_keeps_no_id {i : Nat} (dtI : DT) (nowMs : Int) (e : Event) (ts : Timers)
    (he : e.id = i → e.completed = true)
    (hts : ∀ x ∈ ts.live, x.eventId ≠ i) :
    ∀ x ∈ (scheduleEventCheck dtI nowMs e ts).live, x.eventId ≠ i := by
  by_cases hc : e.completed = true
  · unfold scheduleEventCheck
    rw [if_pos hc]
    exact hts
  · by_cases hlt : dtI e.date e.time < nowMs
    · unfold scheduleEventCheck
      rw [if_neg hc, if_pos hlt]
      exact hts
    · unfold scheduleEventCheck
      rw [if_neg hc, if_neg hlt]
      have heid : e.id ≠ i := fun hh => hc (he hh)
      unfold armNew
      intro x hx
      rcases List.mem_append.mp hx with hx | hx
      · exact hts x (clearCheck_live_sub hx)
      · simp only [List.mem_singleton] at hx
        subst hx
        exact heid

/-- Arming a whole list of such events never introduces a live timer for
the watched id. -/
theorem foldl_schedule_keeps_no_id {i : Nat} (dtI : DT) (nowMs : Int) (l : List Event)
    (ts : Timers)
    (hl : ∀ e ∈ l, e.id = i → e.completed = true)
    (hts : ∀ x ∈ ts.live, x.eventId ≠ i) :
    ∀ x ∈ (l.foldl (fun ts e => scheduleEventCheck dtI nowMs e ts) ts).live,
      x.eventId ≠ i := by
  induction l generalizing ts with
  | nil => exact hts
  | cons e rest ih =>
      rw [List.foldl_cons]
      exact ih (scheduleEventCheck dtI nowMs e ts)
        (fun y hy => hl y (List.mem_cons_of_mem e hy))
        (schedule_keeps_no_id dtI nowMs e ts (hl e (by simp)) hts)

/-- The reconcile pass keeps every record with the watched id
completed. -/
theorem reconcile_keeps_completed_id {i : Nat} (dtI : DT) (nowMs : Int) (l : List Event)
    (h : ∀ y ∈ l, y.id = i → y.completed = true) :
    ∀ x ∈ (checkAndUpdatePastEvents dtI nowMs l).1, x.id = i → x.completed = true := by
  rw [reconcile_fst]
  intro x hx
  rcases List.mem_map.mp hx with ⟨y, hy, hxy⟩
  subst hxy
  by_cases hcond : y.completed = false ∧ dtI y.date y.time < nowMs
  · rw [if_pos hcond]
    intro _
    rfl
  · rw [if_neg hcond]
    exact h y hy

/-- Every event returned by the cache-miss storage read is a stored
record. -/
theorem fetchedOf_mem {s : StoreState} {x : Event} (hx : x ∈ fetchedOf s) :
    x ∈ s.dbEvents := by
  unfold fetchedOf at hx
  cases hsel : s.selectedDate with
  | none =>
      rw [hsel] at hx
      unfold EventDatabase.getAllEvents at hx
      exact (List.perm_insertionSort _ _).mem_iff.mp hx
  | some d =>
      rw [hsel] at hx
      dsimp only at hx
      by_cases hd : d = ""
      · rw [if_pos hd] at hx
        unfold EventDatabase.getAllEvents at hx
        exact (List.perm_insertionSort _ _).mem_iff.mp hx
      · rw [if_neg hd] at hx
        unfold EventDatabase.getEventsByDate at hx
        have := (List.perm_insertionSort _ _).mem_iff.mp hx
        exact List.mem_of_mem_filter this

/-- A refresh never introduces a live timer for an id whose records are
all completed. -/
theorem refresh_keeps_no_live_id {i : Nat} (dtI : DT) (c : Clock) (s : StoreState)
    (hdb : ∀ y ∈ s.dbEvents, y.id = i → y.completed = true)
    (hts : ∀ x ∈ s.timers.live, x.eventId ≠ i) :
    ∀ x ∈ (refreshEvents dtI c s).timers.live, x.eventId ≠ i := by
  unfold refreshEvents
  split
  · exact hts
  · split
    · split
      · exact hts
      · exact hts
    · apply foldl_schedule_keeps_no_id
      · intro e he'
        exact reconcile_keeps_completed_id dtI c.ms (fetchedOf s)
          (fun y hy => hdb y (fetchedOf_mem hy)) e he'
      · exact hts

/-- Deregistering an id with no live timer preserves well-formedness. -/
theorem Timers.registry_filter_WF {ts : Timers} {i : Nat} (h : Timers.WF ts)
    (hno : ∀ x ∈ ts.live, x.eventId ≠ i) :
    Timers.WF { ts with registry := ts.registry.filter (fun p => p.1 != i) } := by
  obtain ⟨hreg, hlive, hlr, hlb, hrb⟩ := h
  refine ⟨hreg.sublist ((List.filter_sublist _).map _), hlive, ?_, hlb, ?_⟩
  · intro t ht
    apply List.mem_filter.mpr
    refine ⟨hlr t ht, ?_⟩
    simpa [bne_iff_ne] using hno t ht
  · intro q hq
    exact hrb q (List.mem_of_mem_filter hq)

/-- A fired timer callback preserves store well-formedness. -/
theorem StoreWF_fireTimer (dtI : DT) (c : Clock) (h : Nat) (s : StoreState)
    (hwf : StoreWF s) : StoreWF (fireTimer dtI c h s) := by
  obtain ⟨htw, hnodup, hbound⟩ := hwf
  unfold fireTimer
  cases hfind : s.timers.live.find? (fun x => x.handle == h) with
  | none => exact ⟨htw, hnodup, hbound⟩
  | some t =>
      dsimp only
      cases hm : EventDatabase.markEventAsCompleted s.dbEvents t.eventId true c.iso with
      | error err =>
          exact ⟨Timers.live_filter_WF htw _, hnodup, hbound⟩
      | ok db2 =>
          have hids : db2.map Event.id = s.dbEvents.map Event.id :=
            EventDatabase.updateEvent_ids hm
          have hWFin : StoreWF
              { s with dbEvents := db2,
                       timers := { s.timers with
                         live := s.timers.live.filter (fun x => x.handle != h) } } :=
            ⟨Timers.live_filter_WF htw _, ids_eq_nodup hids hnodup, ids_eq_bound hids hbound⟩
          have hWF2 := StoreWF_refresh dtI c _ hWFin
          have hno2 := refresh_keeps_no_live_id dtI c
            { s with dbEvents := db2,
                     timers := { s.timers with
                       live := s.timers.live.filter (fun x => x.handle != h) } }
            (EventDatabase.markCompleted_sets hnodup hm)
            (fired_no_live_id htw hfind)
          exact ⟨Timers.registry_filter_WF hWF2.1 hno2, hWF2.2.1, hWF2.2.2⟩

end EventStore

namespace EventDatabase

/-- A successful insert appends exactly one record keyed by the
auto-increment counter. -/
theorem addEvent_ids {db : List Event} {n : Nat} {e : CreateEvent} {iso : String}
    {r : List Event × Nat} (h : addEvent db n e iso = .ok r) :
    r.1.map Event.id = db.map Event.id ++ [n] := by
  unfold addEvent at h
  cases hv : validatePriority e.priority with
  | error err =>
      rw [hv] at h
      simp at h
  | ok _ =>
      rw [hv] at h
      have hr : r = (db ++ [{ id := n, title := e.title, description := e.description,
                              date := e.date, time := e.time, priority := e.priority,
                              completed := false, created_at := iso, updated_at := none }], n) :=
        (Except.ok.inj h).symm
      rw [hr]
      simp

end EventDatabase

namespace EventStore

/-- The store's `addEvent` preserves store well-formedness. -/
theorem StoreWF_addEvent (dtI : DT) (c : Clock) (e : CreateEvent) (s s2 : StoreState)
    (hwf : StoreWF s) (h : addEvent dtI c e s = .ok s2) : StoreWF s2 := by
  obtain ⟨htw, hnodup, hbound⟩ := hwf
  unfold addEvent at h
  by_cases hr : s.isDBReady = false
  · rw [if_pos hr] at h
    simp at h
  · rw [if_neg hr] at h
    dsimp only at h
    cases hdb : EventDatabase.addEvent s.dbEvents s.nextId e c.iso with
    | error err =>
        rw [hdb] at h
        have hs2 : s2 = { s with loading := false, error := some err.message } :=
          (Except.ok.inj h).symm
        rw [hs2]
        exact ⟨htw, hnodup, hbound⟩
    | ok r =>
        rw [hdb] at h
        have hs2 : s2 = refreshEvents dtI c
            { s with loading := true, error := none, dbEvents := r.1,
                     nextId := s.nextId + 1,
                     cache := invalidateCache s.cache } :=
          (Except.ok.inj h).symm
        rw [hs2]
        apply StoreWF_refresh
        have hids := EventDatabase.addEvent_ids hdb
        refine ⟨htw, ?_, ?_⟩
        · dsimp only
          rw [hids]
          apply List.Nodup.append hnodup (by simp)
          intro a ha hb
          simp only [List.mem_singleton] at hb
          subst hb
          rcases List.mem_map.mp ha with ⟨y, hy, hya⟩
          have := hbound y hy
          rw [hya] at this
          exact lt_irrefl _ this
        · dsimp only
          intro x hx
          have hxm : x.id ∈ r.1.map Event.id := List.mem_map_of_mem Event.id hx
          rw [hids] at hxm
          rcases List.mem_append.mp hxm with hxm | hxm
          · rcases List.mem_map.mp hxm with ⟨y, hy, hya⟩
            rw [← hya]
            exact lt_trans (hbound y hy) (Nat.lt_succ_self _)
          · simp only [List.mem_singleton] at hxm
            rw [hxm]
            exact Nat.lt_succ_self _

/-- The store's `updateEvent` preserves store well-formedness. -/
theorem StoreWF_updateEvent (dtI : DT) (c : Clock) (id : Nat) (u : UpdateEvent)
    (s s2 : StoreState) (hwf : StoreWF s) (h : updateEvent dtI c id u s = .ok s2) :
    StoreWF s2 := by
  obtain ⟨htw, hnodup, hbound⟩ := hwf
  unfold updateEvent at h
  by_cases hr : s.isDBReady = false
  · rw [if_pos hr] at h
    simp at h
  · rw [if_neg hr] at h
    dsimp only at h
    cases hdb : EventDatabase.updateEvent s.dbEvents id u c.iso with
    | error err =>
        rw [hdb] at h
        have hs2 : s2 = { s with loading := false, error := some err.message } :=
          (Except.ok.inj h).symm
        rw [hs2]
        exact ⟨htw, hnodup, hbound⟩
    | ok db2 =>
        rw [hdb] at h
        have hs2 : s2 = refreshEvents dtI c
            { s with loading := true, error := none, dbEvents := db2,
                     timers := clearCheck s.timers id,
                     cache := invalidateCache s.cache } :=
          (Except.ok.inj h).symm
        rw [hs2]
        apply StoreWF_refresh
        have hids := EventDatabase.updateEvent_ids hdb
        exact ⟨Timers.clearCheck_WF htw id, ids_eq_nodup hids hnodup,
          ids_eq_bound hids hbound⟩

/-- The store's `deleteEvent` preserves store well-formedness. -/
theorem StoreWF_deleteEvent (dtI : DT) (c : Clock) (id : Nat) (s s2 : StoreState)
    (hwf : StoreWF s) (h : deleteEvent dtI c id s = .ok s2) : StoreWF s2 := by
  obtain ⟨htw, hnodup, hbound⟩ := hwf
  unfold deleteEvent at h
  by_cases hr : s.isDBReady = false
  · rw [if_pos hr] at h
    simp at h
  · rw [if_neg hr] at h
    have hs2 : s2 = refreshEvents dtI c
        { s with loading := true, error := none,
                 timers := clearCheck s.timers id,
                 dbEvents := EventDatabase.deleteEvent s.dbEvents id,
                 cache := invalidateCache s.cache } :=
      (Except.ok.inj h).symm
    rw [hs2]
    apply StoreWF_refresh
    refine ⟨Timers.clearCheck_WF htw id, ?_, ?_⟩
    · exact hnodup.sublist ((List.filter_sublist _).map _)
    · intro x hx
      exact hbound x (List.mem_of_mem_filter hx)

/-- The store's `markEventAsCompleted` preserves store well-formedness. -/
theorem StoreWF_markEventAsCompleted (dtI : DT) (c : Clock) (id : Nat) (b : Bool)
    (s s2 : StoreState) (hwf : StoreWF s)
    (h : markEventAsCompleted dtI c id b s = .ok s2) : StoreWF s2 := by
  obtain ⟨htw, hnodup, hbound⟩ := hwf
  have htw2 : Timers.WF (if b then clearCheck s.timers id else s.timers) := by
    by_cases hb : b
    · rw [if_pos hb]
      exact Timers.clearCheck_WF htw id
    · rw [if_neg hb]
      exact htw
  unfold markEventAsCompleted at h
  by_cases hr : s.isDBReady = false
  · rw [if_pos hr] at h
    simp at h
  · rw [if_neg hr] at h
    dsimp only at h
    cases hdb : EventDatabase.markEventAsCompleted s.dbEvents id b c.iso with
    | error err =>
        rw [hdb] at h
        have hs2 : s2 = { s with loading := false, error := some err.message,
                                 timers := if b then clearCheck s.timers id else s.timers } :=
          (Except.ok.inj h).symm
        rw [hs2]
        exact ⟨htw2, hnodup, hbound⟩
    | ok db2 =>
        rw [hdb] at h
        have hs2 : s2 = refreshEvents dtI c
            { s with loading := true, error := none,
                     timers := if b then clearCheck s.timers id else s.timers,
                     dbEvents := db2,
                     cache := invalidateCache s.cache } :=
          (Except.ok.inj h).symm
        rw [hs2]
        apply StoreWF_refresh
        have hids := EventDatabase.updateEvent_ids hdb
        exact ⟨htw2, ids_eq_nodup hids hnodup, ids_eq_bound hids hbound⟩

/-- The store's `fetchEvents` preserves store well-formedness. -/
theorem StoreWF_fetchEvents (dtI : DT) (c : Clock) (s : StoreState) (hwf : StoreWF s) :
    StoreWF (fetchEvents dtI c s) := by
  unfold fetchEvents
  split
  · exact hwf
  · exact StoreWF_refresh dtI c _ ⟨hwf.1, hwf.2.1, hwf.2.2⟩

end EventStore

/-- C7.  The timer registry holds at most one armed timer per event id:
under the store's well-formedness invariant two live timers with the same
event id coincide, and the invariant is preserved by arming
(`scheduleEventCheck`, which cancels before re-arming), by every refresh
(which re-arms the whole view), by a timer firing (which removes its own
registration), by every store mutation, and by `fetchEvents`; `cleanup`
cancels and removes every armed timer. -/
theorem timer_registry_unique_spec (dtI : DT) :
    (∀ ts : EventStore.Timers, EventStore.Timers.WF ts →
      ∀ t1 ∈ ts.live, ∀ t2 ∈ ts.live, t1.eventId = t2.eventId → t1 = t2) ∧
    (∀ (nowMs : Int) (e : Event) (ts : EventStore.Timers), EventStore.Timers.WF ts →
      EventStore.Timers.WF (EventStore.scheduleEventCheck dtI nowMs e ts)) ∧
    (∀ ts : EventStore.Timers, EventStore.Timers.WF ts →
      EventStore.cleanupTimers ts =
        { live := [], registry := [], nextHandle := ts.nextHandle }) ∧
    (∀ (c : Clock) (s : EventStore.StoreState), EventStore.StoreWF s →
      EventStore.StoreWF (EventStore.refreshEvents dtI c s)) ∧
    (∀ (c : Clock) (h : Nat) (s : EventStore.StoreState), EventStore.StoreWF s →
      EventStore.StoreWF (EventStore.fireTimer dtI c h s)) ∧
    (∀ (c : Clock) (e : CreateEvent) (s s2 : EventStore.StoreState), EventStore.StoreWF s →
      EventStore.addEvent dtI c e s = .ok s2 → EventStore.StoreWF s2) ∧
    (∀ (c : Clock) (id : Nat) (u : UpdateEvent) (s s2 : EventStore.StoreState),
      EventStore.StoreWF s →
      EventStore.updateEvent dtI c id u s = .ok s2 → EventStore.StoreWF s2) ∧
    (∀ (c : Clock) (id : Nat) (s s2 : EventStore.StoreState), EventStore.StoreWF s →
      EventStore.deleteEvent dtI c id s = .ok s2 → EventStore.StoreWF s2) ∧
    (∀ (c : Clock) (id : Nat) (b : Bool) (s s2 : EventStore.StoreState),
      EventStore.StoreWF s →
      EventStore.markEventAsCompleted dtI c id b s = .ok s2 → EventStore.StoreWF s2) ∧
    (∀ (c : Clock) (s : EventStore.StoreState), EventStore.StoreWF s →
      EventStore.StoreWF (EventStore.fetchEvents dtI c s)) ∧
    (∀ s : EventStore.StoreState, EventStore.StoreWF s →
      EventStore.StoreWF (EventStore.cleanup s)) := by
  refine ⟨?_, ?_, ?_, ?_, ?_, ?_, ?_, ?_, ?_, ?_, ?_⟩
  · intro ts hwf t1 h1 t2 h2 he
    obtain ⟨hreg, hlive, hlr, _, _⟩ := hwf
    have hp1 := hlr t1 h1
    have hp2 := hlr t2 h2
    rw [he] at hp1
    have hh := keys_nodup_inj hreg hp1 hp2
    exact List.inj_on_of_nodup_map hlive h1 h2 hh
  · intro nowMs e ts hwf
    exact EventStore.Timers.schedule_WF hwf dtI nowMs e
  · intro ts hwf
    exact EventStore.cleanupTimers_empty hwf
  · intro c s hwf
    exact EventStore.StoreWF_refresh dtI c s hwf
  · intro c h s hwf
    exact EventStore.StoreWF_fireTimer dtI c h s hwf
  · intro c e s s2 hwf h
    exact EventStore.StoreWF_addEvent dtI c e s s2 hwf h
  · intro c id u s s2 hwf h
    exact EventStore.StoreWF_updateEvent dtI c id u s s2 hwf h
  · intro c id s s2 hwf h
    exact EventStore.StoreWF_deleteEvent dtI c id s s2 hwf h
  · intro c id b s s2 hwf h
    exact EventStore.StoreWF_markEventAsCompleted dtI c id b s s2 hwf h
  · intro c s hwf
    exact EventStore.StoreWF_fetchEvents dtI c s hwf
  · intro s hwf
    unfold EventStore.cleanup
    rw [EventStore.cleanupTimers_empty hwf.1]
    exact ⟨⟨by simp, by simp, by simp, by simp, by simp⟩, hwf.2.1, hwf.2.2⟩

/-- Witness for C7: the invariant holds of the sample states, arming the
future sample event keeps it, cleanup empties the sample timer state, and
firing the armed sample timer keeps the whole store invariant. -/
theorem timer_registry_unique_spec_witness :
    EventStore.Timers.WF (EventStore.scheduleEventCheck dtC 40 evFut tsEmpty) ∧
    EventStore.cleanupTimers sFire.timers =
      { live := [], registry := [], nextHandle := sFire.timers.nextHandle } ∧
    EventStore.StoreWF (EventStore.fireTimer dtC clk9 7 sFire) ∧
    EventStore.StoreWF (EventStore.fetchEvents dtC clk1 s0) := by
  have h := timer_registry_unique_spec dtC
  exact ⟨h.2.1 40 evFut tsEmpty (by decide), h.2.2.1 sFire.timers (by decide),
    h.2.2.2.2.1 clk9 7 sFire (by decide),
    h.2.2.2.2.2.2.2.2.2.1 clk1 s0 (by decide)⟩
